import Mathlib

/-!
Verification of the Secure-chat repository's key-exchange, encryption and
replay-guard layers against its natural-language specification.

Conventions of the shallow embedding:
* JavaScript strings are modelled as lists of Unicode code points (`JSStr`),
  byte buffers (`ArrayBuffer` / `Uint8Array`) as lists of naturals < 256
  (`Bytes`).
* `lib/crypto-client.ts` string/byte plumbing (`arrayBufferToBase64`,
  `base64ToArrayBuffer`, `TextEncoder` / `TextDecoder`) is implemented
  byte-for-byte.
* The cryptographic primitives themselves (ECDSA, ECDH, HKDF, HMAC and the
  AES-GCM core) are modelled structurally by a `CryptoPrims` parameter:
  AES-GCM is a CTR keystream xor plus a tag function over the ciphertext,
  signatures are deterministic with verification succeeding exactly on the
  signed data, ECDH satisfies the Diffie-Hellman sharing equation.
-/

set_option maxHeartbeats 1000000

namespace SecureChat

/-- Byte buffers (`Uint8Array` contents): naturals, well-formed when < 256. -/
abbrev Bytes := List Nat

/-- JavaScript strings as lists of Unicode code points. -/
abbrev JSStr := List Nat

/-- Embed a Lean string literal as a JavaScript string (code-point list). -/
def jstr (s : String) : JSStr := s.data.map Char.toNat

/-- Decimal rendering of a number, as produced by a JS template literal. -/
def natToJStr (n : Nat) : JSStr := jstr (toString n)

/-- Model of `Math.abs (a - b)` for JS epoch-millisecond timestamps. -/
def absDiff (a b : Nat) : Nat := if a ≤ b then b - a else a - b

instance {ε α : Type} [DecidableEq ε] [DecidableEq α] : DecidableEq (Except ε α) :=
  fun a b =>
    match a, b with
    | .ok x, .ok y =>
      if h : x = y then isTrue (by rw [h]) else isFalse (by simp [h])
    | .error x, .error y =>
      if h : x = y then isTrue (by rw [h]) else isFalse (by simp [h])
    | .ok _, .error _ => isFalse (by simp)
    | .error _, .ok _ => isFalse (by simp)

/-! ### Base64 (`btoa` / `atob` over binary strings, as used by
`arrayBufferToBase64` / `base64ToArrayBuffer` in `lib/crypto-client.ts`) -/

/-- Code point of the standard base64 alphabet at index `n` (`n < 64`). -/
def b64Char (n : Nat) : Nat :=
  if n < 26 then 65 + n
  else if n < 52 then 97 + (n - 26)
  else if n < 62 then 48 + (n - 52)
  else if n = 62 then 43
  else 47

/-- Index of code point `c` in the base64 alphabet, `none` for non-alphabet
characters (on which `atob` throws). -/
def b64Val (c : Nat) : Option Nat :=
  if 65 ≤ c ∧ c ≤ 90 then some (c - 65)
  else if 97 ≤ c ∧ c ≤ 122 then some (26 + (c - 97))
  else if 48 ≤ c ∧ c ≤ 57 then some (52 + (c - 48))
  else if c = 43 then some 62
  else if c = 47 then some 63
  else none

/-- Model of `arrayBufferToBase64` of `lib/crypto-client.ts`: bytes to base64 text
(byte-per-char binary string followed by `btoa`).  `61` is the code of the
padding character. -/
def arrayBufferToBase64 : Bytes → JSStr
  | [] => []
  | [a] => [b64Char (a / 4), b64Char (a % 4 * 16), 61, 61]
  | [a, b] => [b64Char (a / 4), b64Char (a % 4 * 16 + b / 16), b64Char (b % 16 * 4), 61]
  | a :: b :: c :: rest =>
      b64Char (a / 4) :: b64Char (a % 4 * 16 + b / 16) ::
        b64Char (b % 16 * 4 + c / 64) :: b64Char (c % 64) :: arrayBufferToBase64 rest

/-- Model of `base64ToArrayBuffer` of `lib/crypto-client.ts`: `atob` followed by
reading char codes.  Returns `none` where `atob` throws (bad length, stray
padding or non-alphabet characters). -/
def base64ToArrayBuffer : JSStr → Option Bytes
  | [] => some []
  | c1 :: c2 :: c3 :: c4 :: rest =>
    match b64Val c1, b64Val c2 with
    | some v1, some v2 =>
      if rest = [] then
        if c3 = 61 then
          if c4 = 61 then some [v1 * 4 + v2 / 16] else none
        else
          match b64Val c3 with
          | some v3 =>
            if c4 = 61 then some [v1 * 4 + v2 / 16, v2 % 16 * 16 + v3 / 4]
            else
              match b64Val c4 with
              | some v4 => some [v1 * 4 + v2 / 16, v2 % 16 * 16 + v3 / 4, v3 % 4 * 64 + v4]
              | none => none
          | none => none
      else
        match b64Val c3, b64Val c4 with
        | some v3, some v4 =>
          (base64ToArrayBuffer rest).map
            (fun tail => (v1 * 4 + v2 / 16) :: (v2 % 16 * 16 + v3 / 4) :: (v3 % 4 * 64 + v4) :: tail)
        | _, _ => none
    | _, _ => none
  | _ => none

theorem b64Val_b64Char (n : Nat) (h : n < 64) : b64Val (b64Char n) = some n := by
  interval_cases n <;> decide

theorem b64Char_ne_pad (n : Nat) (h : n < 64) : b64Char n ≠ 61 := by
  interval_cases n <;> decide

theorem arrayBufferToBase64_nil_iff (bs : Bytes) :
    arrayBufferToBase64 bs = [] ↔ bs = [] := by
  cases bs with
  | nil => simp [arrayBufferToBase64]
  | cons a t =>
    cases t with
    | nil => simp [arrayBufferToBase64]
    | cons b t2 =>
      cases t2 with
      | nil => simp [arrayBufferToBase64]
      | cons c t3 => simp [arrayBufferToBase64]

/-- Round trip: decoding an encoded byte buffer restores it exactly. -/
theorem base64_roundtrip :
    ∀ bs : Bytes, (∀ x ∈ bs, x < 256) →
      base64ToArrayBuffer (arrayBufferToBase64 bs) = some bs := by
  intro bs
  induction bs using arrayBufferToBase64.induct with
  | case1 =>
    intro _; simp [arrayBufferToBase64, base64ToArrayBuffer]
  | case2 a =>
    intro h
    have ha : a < 256 := h a (by simp)
    have h1 : a / 4 < 64 := by omega
    have h2 : a % 4 * 16 < 64 := by omega
    simp only [arrayBufferToBase64, base64ToArrayBuffer,
      b64Val_b64Char _ h1, b64Val_b64Char _ h2]
    simp
    omega
  | case3 a b =>
    intro h
    have ha : a < 256 := h a (by simp)
    have hb : b < 256 := h b (by simp)
    have h1 : a / 4 < 64 := by omega
    have h2 : a % 4 * 16 + b / 16 < 64 := by omega
    have h3 : b % 16 * 4 < 64 := by omega
    have hne3 : b64Char (b % 16 * 4) ≠ 61 := b64Char_ne_pad _ h3
    simp only [arrayBufferToBase64, base64ToArrayBuffer,
      b64Val_b64Char _ h1, b64Val_b64Char _ h2, b64Val_b64Char _ h3]
    simp [hne3]
    omega
  | case4 a b c rest ih =>
    intro h
    have ha : a < 256 := h a (by simp)
    have hb : b < 256 := h b (by simp)
    have hc : c < 256 := h c (by simp)
    have hrest : ∀ x ∈ rest, x < 256 := fun x hx => h x (by simp [hx])
    have h1 : a / 4 < 64 := by omega
    have h2 : a % 4 * 16 + b / 16 < 64 := by omega
    have h3 : b % 16 * 4 + c / 64 < 64 := by omega
    have h4 : c % 64 < 64 := by omega
    have hne3 : b64Char (b % 16 * 4 + c / 64) ≠ 61 := b64Char_ne_pad _ h3
    have hne4 : b64Char (c % 64) ≠ 61 := b64Char_ne_pad _ h4
    by_cases hre : rest = []
    · subst hre
      simp only [arrayBufferToBase64, base64ToArrayBuffer, b64Val_b64Char _ h1,
        b64Val_b64Char _ h2, b64Val_b64Char _ h3, b64Val_b64Char _ h4]
      simp [hne3, hne4]
      omega
    · have henc : arrayBufferToBase64 rest ≠ [] := by
        intro hh
        exact hre ((arrayBufferToBase64_nil_iff rest).mp hh)
      simp only [arrayBufferToBase64, base64ToArrayBuffer, b64Val_b64Char _ h1,
        b64Val_b64Char _ h2, b64Val_b64Char _ h3, b64Val_b64Char _ h4]
      simp [hne3, hne4, henc, ih hrest]
      omega

/-! ### UTF-8 (`TextEncoder.encode` / `TextDecoder.decode`) -/

/-- A Unicode scalar value: any code point except the surrogate range.
Well-formed JS strings contain only these. -/
def ScalarCP (c : Nat) : Prop := c < 0x110000 ∧ ¬(0xD800 ≤ c ∧ c < 0xE000)

instance (c : Nat) : Decidable (ScalarCP c) := by unfold ScalarCP; infer_instance

/-- UTF-8 encoding of one code point; `TextEncoder` replaces lone
surrogates by U+FFFD (`EF BF BD`). -/
def utf8EncodeChar (c : Nat) : Bytes :=
  if c < 0x80 then [c]
  else if c < 0x800 then [0xC0 + c / 64, 0x80 + c % 64]
  else if 0xD800 ≤ c ∧ c < 0xE000 then [0xEF, 0xBF, 0xBD]
  else if c < 0x10000 then [0xE0 + c / 4096, 0x80 + c / 64 % 64, 0x80 + c % 64]
  else [0xF0 + c / 262144, 0x80 + c / 4096 % 64, 0x80 + c / 64 % 64, 0x80 + c % 64]

/-- Model of `new TextEncoder().encode(s)`. -/
def textEncoderEncode (s : JSStr) : Bytes := s.flatMap utf8EncodeChar

/-- UTF-8 continuation byte. -/
def isCont (b : Nat) : Bool := decide (0x80 ≤ b ∧ b < 0xC0)

/-- Fuel-driven UTF-8 decoding loop; each emitted code point consumes at
least one input byte, so fuel = input length always suffices. -/
def utf8DecodeGo : Nat → Bytes → JSStr
  | 0, _ => []
  | _ + 1, [] => []
  | fuel + 1, b :: rest =>
    if b < 0x80 then b :: utf8DecodeGo fuel rest
    else if 0xC0 ≤ b ∧ b < 0xE0 then
      match rest with
      | b2 :: rest2 =>
        if isCont b2 then ((b - 0xC0) * 64 + (b2 - 0x80)) :: utf8DecodeGo fuel rest2
        else 0xFFFD :: utf8DecodeGo fuel rest
      | [] => [0xFFFD]
    else if 0xE0 ≤ b ∧ b < 0xF0 then
      match rest with
      | b2 :: b3 :: rest3 =>
        if isCont b2 ∧ isCont b3 then
          ((b - 0xE0) * 4096 + (b2 - 0x80) * 64 + (b3 - 0x80)) :: utf8DecodeGo fuel rest3
        else 0xFFFD :: utf8DecodeGo fuel rest
      | _ => [0xFFFD]
    else if 0xF0 ≤ b ∧ b < 0xF8 then
      match rest with
      | b2 :: b3 :: b4 :: rest4 =>
        if isCont b2 ∧ isCont b3 ∧ isCont b4 then
          ((b - 0xF0) * 262144 + (b2 - 0x80) * 4096 + (b3 - 0x80) * 64 + (b4 - 0x80)) ::
            utf8DecodeGo fuel rest4
        else 0xFFFD :: utf8DecodeGo fuel rest
      | _ => [0xFFFD]
    else 0xFFFD :: utf8DecodeGo fuel rest

/-- Model of `new TextDecoder().decode(bytes)`: total and lenient, emitting U+FFFD
on malformed input, exact on well-formed encodings (only the latter is
relied on by any theorem). -/
def textDecoderDecode (bs : Bytes) : JSStr := utf8DecodeGo bs.length bs

theorem utf8EncodeChar_length_pos (c : Nat) : 0 < (utf8EncodeChar c).length := by
  unfold utf8EncodeChar
  split
  · simp
  · split
    · simp
    · split
      · simp
      · split <;> simp

theorem utf8DecodeGo_encodeChar (c : Nat) (h : ScalarCP c) (fuel : Nat) (rest : Bytes) :
    utf8DecodeGo (fuel + 1) (utf8EncodeChar c ++ rest) = c :: utf8DecodeGo fuel rest := by
  obtain ⟨hlt, hsur⟩ := h
  by_cases h1 : c < 0x80
  · simp [utf8EncodeChar, h1, utf8DecodeGo]
  · by_cases h2 : c < 0x800
    · have g1 : ¬(0xC0 + c / 64 < 0x80) := by omega
      have g2 : 0xC0 ≤ 0xC0 + c / 64 ∧ 0xC0 + c / 64 < 0xE0 := by omega
      have g3 : isCont (0x80 + c % 64) = true := by simp [isCont]; omega
      simp only [utf8EncodeChar, if_neg h1, if_pos h2, List.cons_append, List.nil_append]
      simp [utf8DecodeGo, g1, g2, g3]
      omega
    · by_cases h3 : c < 0x10000
      · have g1 : ¬(0xE0 + c / 4096 < 0x80) := by omega
        have g2 : ¬(0xC0 ≤ 0xE0 + c / 4096 ∧ 0xE0 + c / 4096 < 0xE0) := by omega
        have g3 : 0xE0 ≤ 0xE0 + c / 4096 ∧ 0xE0 + c / 4096 < 0xF0 := by omega
        have g4 : isCont (0x80 + c / 64 % 64) = true := by simp [isCont]; omega
        have g5 : isCont (0x80 + c % 64) = true := by simp [isCont]; omega
        simp only [utf8EncodeChar, if_neg h1, if_neg h2, if_neg hsur, if_pos h3,
          List.cons_append, List.nil_append]
        simp [utf8DecodeGo, g1, g2, g3, g4, g5]
        omega
      · have g1 : ¬(0xF0 + c / 262144 < 0x80) := by omega
        have g2 : ¬(0xC0 ≤ 0xF0 + c / 262144 ∧ 0xF0 + c / 262144 < 0xE0) := by omega
        have g3 : ¬(0xE0 ≤ 0xF0 + c / 262144 ∧ 0xF0 + c / 262144 < 0xF0) := by omega
        have g4 : 0xF0 ≤ 0xF0 + c / 262144 ∧ 0xF0 + c / 262144 < 0xF8 := by omega
        have g5 : isCont (0x80 + c / 4096 % 64) = true := by simp [isCont]; omega
        have g6 : isCont (0x80 + c / 64 % 64) = true := by simp [isCont]; omega
        have g7 : isCont (0x80 + c % 64) = true := by simp [isCont]; omega
        simp only [utf8EncodeChar, if_neg h1, if_neg h2, if_neg hsur, if_neg h3,
          List.cons_append, List.nil_append]
        simp [utf8DecodeGo, g1, g2, g3, g4, g5, g6, g7]
        omega

theorem utf8DecodeGo_encode (s : JSStr) (h : ∀ c ∈ s, ScalarCP c) :
    ∀ fuel, (textEncoderEncode s).length ≤ fuel →
      utf8DecodeGo fuel (textEncoderEncode s) = s := by
  induction s with
  | nil =>
    intro fuel _
    cases fuel <;> simp [textEncoderEncode, utf8DecodeGo]
  | cons c t ih =>
    intro fuel hfuel
    have hc : ScalarCP c := h c (by simp)
    have ht : ∀ x ∈ t, ScalarCP x := fun x hx => h x (by simp [hx])
    have hlen : (utf8EncodeChar c).length + (textEncoderEncode t).length ≤ fuel := by
      simpa [textEncoderEncode, List.flatMap_cons] using hfuel
    have hpos := utf8EncodeChar_length_pos c
    cases fuel with
    | zero => omega
    | succ f =>
      simp only [textEncoderEncode, List.flatMap_cons]
      rw [utf8DecodeGo_encodeChar c hc]
      rw [show t.flatMap utf8EncodeChar = textEncoderEncode t from rfl,
        ih ht f (by simp [textEncoderEncode] at hlen ⊢; omega)]

/-- Round trip: decoding an encoded well-formed JS string restores it. -/
theorem utf8_roundtrip (s : JSStr) (h : ∀ c ∈ s, ScalarCP c) :
    textDecoderDecode (textEncoderEncode s) = s :=
  utf8DecodeGo_encode s h _ le_rfl

/-- Every byte produced by the UTF-8 encoder is a byte. -/
theorem textEncoderEncode_lt (s : JSStr) (h : ∀ c ∈ s, ScalarCP c) :
    ∀ b ∈ textEncoderEncode s, b < 256 := by
  intro b hb
  simp only [textEncoderEncode, List.mem_flatMap] at hb
  obtain ⟨c, hcs, hbc⟩ := hb
  obtain ⟨hlt, hsur⟩ := h c hcs
  by_cases h1 : c < 0x80
  · simp [utf8EncodeChar, h1] at hbc; omega
  · by_cases h2 : c < 0x800
    · simp [utf8EncodeChar, h1, h2] at hbc; omega
    · by_cases h3 : c < 0x10000
      · simp [utf8EncodeChar, h1, h2, h3, hsur] at hbc; omega
      · simp [utf8EncodeChar, h1, h2, h3, hsur] at hbc; omega

/-! ### CTR keystream xor (structural core of AES-GCM encryption) -/

/-- Xor a byte sequence against a keystream, starting at index `i`. -/
def ctrXor (f : Nat → Nat) : Nat → Bytes → Bytes
  | _, [] => []
  | i, b :: bs => (b ^^^ f i) :: ctrXor f (i + 1) bs

theorem ctrXor_ctrXor (f : Nat → Nat) : ∀ (i : Nat) (bs : Bytes),
    ctrXor f i (ctrXor f i bs) = bs := by
  intro i bs
  induction bs generalizing i with
  | nil => simp [ctrXor]
  | cons b t ih =>
    simp [ctrXor, ih, Nat.xor_assoc]

theorem ctrXor_length (f : Nat → Nat) : ∀ (i : Nat) (bs : Bytes),
    (ctrXor f i bs).length = bs.length := by
  intro i bs
  induction bs generalizing i with
  | nil => simp [ctrXor]
  | cons b t ih => simp [ctrXor, ih]

theorem ctrXor_lt (f : Nat → Nat) (hf : ∀ i, f i < 256) : ∀ (i : Nat) (bs : Bytes),
    (∀ b ∈ bs, b < 256) → ∀ b ∈ ctrXor f i bs, b < 256 := by
  intro i bs
  induction bs generalizing i with
  | nil => simp [ctrXor]
  | cons b t ih =>
    intro h x hx
    simp only [ctrXor, List.mem_cons] at hx
    rcases hx with hx | hx
    · subst hx
      have h1 : b < 2 ^ 8 := h b (by simp)
      have h2 : f i < 2 ^ 8 := hf i
      exact Nat.xor_lt_two_pow h1 h2
    · exact ih (i + 1) (fun y hy => h y (by simp [hy])) x hx

/-! ### Structural model of the cryptographic primitives

`lib/crypto-client.ts` delegates ECDSA P-256, ECDH P-256, HKDF-SHA256,
HMAC-SHA256 and the AES-256-GCM core to the Web Crypto API.  They are
modelled by the fields below: signatures are deterministic and verify
exactly against the signed data, ECDH satisfies the Diffie-Hellman sharing
equation, and AES-GCM is CTR keystream xor plus a 16-byte tag over the
ciphertext (GHASH).  Private keys are abstract naturals; public keys are
carried in their exported string form. -/
structure CryptoPrims where
  sign : Nat → JSStr → JSStr
  pubOfSigner : Nat → JSStr
  verify : JSStr → JSStr → JSStr → Bool
  verify_iff : ∀ sk sig d, verify (pubOfSigner sk) sig d = true ↔ sig = sign sk d
  dhPub : Nat → JSStr
  dhShared : Nat → JSStr → Bytes
  dh_comm : ∀ a b, dhShared a (dhPub b) = dhShared b (dhPub a)
  hkdf : Bytes → Bytes → Bytes → Bytes
  hmacSHA256 : Bytes → Bytes → Bytes
  ks : Bytes → Bytes → Nat → Nat
  ks_lt : ∀ key iv i, ks key iv i < 256
  gtag : Bytes → Bytes → Bytes → Bytes
  gtag_length : ∀ key iv ct, (gtag key iv ct).length = 16
  gtag_lt : ∀ key iv ct, ∀ b ∈ gtag key iv ct, b < 256

/-! ### `lib/crypto-client.ts` -/

/-- Model of `signData(privateKey, data)`. -/
def signData (p : CryptoPrims) (sk : Nat) (data : JSStr) : JSStr := p.sign sk data

/-- Model of `verifySignature(publicKey, signature, data)`. -/
def verifySignature (p : CryptoPrims) (pub sig data : JSStr) : Bool := p.verify pub sig data

/-- Model of `deriveSharedSecret(privateKey, publicKey)`. -/
def deriveSharedSecret (p : CryptoPrims) (sk : Nat) (pub : JSStr) : Bytes := p.dhShared sk pub

/-- Model of `deriveSessionKey(sharedSecret, salt, info)`: HKDF-SHA256 with the salt
and info strings passed through `TextEncoder`. -/
def deriveSessionKey (p : CryptoPrims) (sharedSecret : Bytes) (salt info : JSStr) : Bytes :=
  p.hkdf sharedSecret (textEncoderEncode salt) (textEncoderEncode info)

/-- Model of `exportSessionKey(key)`: raw export then base64. -/
def exportSessionKey (k : Bytes) : JSStr := arrayBufferToBase64 k

/-- Model of `importSessionKey(keyString)`: base64 decode of the raw key
(`none` where `atob` throws). -/
def importSessionKey (s : JSStr) : Option Bytes := base64ToArrayBuffer s

/-- Result of `encryptMessage`: base64 ciphertext, iv and detached tag. -/
structure EncryptedPayload where
  ciphertext : JSStr
  iv : JSStr
  authTag : JSStr
  deriving DecidableEq, Repr

/-- Model of `encryptMessage(sessionKey, plaintext)` with the freshly generated
12-byte IV made explicit: AES-256-GCM, then split of the GCM output into
ciphertext and 16-byte tag, each base64-encoded. -/
def encryptMessage (p : CryptoPrims) (sessionKey : Bytes) (iv : Bytes)
    (plaintext : JSStr) : EncryptedPayload :=
  let pt := textEncoderEncode plaintext
  let ct := ctrXor (p.ks sessionKey iv) 0 pt
  let encrypted := ct ++ p.gtag sessionKey iv ct
  { ciphertext := arrayBufferToBase64 (encrypted.take (encrypted.length - 16))
    iv := arrayBufferToBase64 iv
    authTag := arrayBufferToBase64 (encrypted.drop (encrypted.length - 16)) }

/-- Failures of `decryptMessage`: `atob` throwing on malformed base64, or
the Web Crypto `OperationError` on GCM tag mismatch. -/
inductive DecryptError where
  | invalidEncoding
  | authenticationFailed
  deriving DecidableEq, Repr

/-- Model of `decryptMessage(sessionKey, ciphertext, iv, authTag)`: decode the parts,
re-append tag to ciphertext and run AES-256-GCM open, which recomputes the
tag over the ciphertext and fails on mismatch. -/
def decryptMessage (p : CryptoPrims) (sessionKey : Bytes)
    (ciphertext iv authTag : JSStr) : Except DecryptError JSStr :=
  match base64ToArrayBuffer ciphertext, base64ToArrayBuffer authTag, base64ToArrayBuffer iv with
  | some ctB, some tagB, some ivB =>
    let combined := ctB ++ tagB
    if combined.length < 16 then .error .authenticationFailed
    else
      let n := combined.length - 16
      if combined.drop n = p.gtag sessionKey ivB (combined.take n) then
        .ok (textDecoderDecode (ctrXor (p.ks sessionKey ivB) 0 (combined.take n)))
      else .error .authenticationFailed
  | _, _, _ => .error .invalidEncoding

/-- Result of `generateKeyConfirmation`. -/
structure KeyConfirmation where
  confirmationHash : JSStr
  confirmationNonce : JSStr
  deriving DecidableEq, Repr

/-- The string `KEY_CONFIRM:senderId:recipientId:nonce:confirmationNonce`
hashed by both confirmation functions. -/
def confirmationData (senderId recipientId nonce confirmationNonce : JSStr) : JSStr :=
  jstr "KEY_CONFIRM:" ++ senderId ++ jstr ":" ++ recipientId ++ jstr ":" ++
    nonce ++ jstr ":" ++ confirmationNonce

/-- Model of `generateKeyConfirmation(sessionKey, senderId, recipientId, nonce)` with
the freshly generated confirmation nonce made explicit: HMAC-SHA256 keyed by
the raw session-key bytes. -/
def generateKeyConfirmation (p : CryptoPrims) (sessionKey : Bytes)
    (senderId recipientId nonce confirmationNonce : JSStr) : KeyConfirmation :=
  { confirmationHash :=
      arrayBufferToBase64 (p.hmacSHA256 sessionKey
        (textEncoderEncode (confirmationData senderId recipientId nonce confirmationNonce)))
    confirmationNonce := confirmationNonce }

/-- The constant-time comparison loop of `verifyKeyConfirmation`:
or-accumulate the xor of corresponding char codes. -/
def ctCompareLoop (a b : JSStr) : Nat :=
  (List.zip a b).foldl (fun r q => r ||| (q.1 ^^^ q.2)) 0

/-- Model of `verifyKeyConfirmation(sessionKey, senderId, recipientId, nonce,
confirmationNonce, receivedHash)`: recompute the HMAC and compare base64
strings in constant time; returns a boolean, never throws. -/
def verifyKeyConfirmation (p : CryptoPrims) (sessionKey : Bytes)
    (senderId recipientId nonce confirmationNonce receivedHash : JSStr) : Bool :=
  let expectedHashBase64 :=
    arrayBufferToBase64 (p.hmacSHA256 sessionKey
      (textEncoderEncode (confirmationData senderId recipientId nonce confirmationNonce)))
  if expectedHashBase64.length ≠ receivedHash.length then false
  else decide (ctCompareLoop expectedHashBase64 receivedHash = 0)

/-! Facts about the comparison loop and the GCM split. -/

theorem nat_or_eq_zero_iff (a b : Nat) : a ||| b = 0 ↔ a = 0 ∧ b = 0 := by
  constructor
  · intro h
    constructor
    · apply Nat.eq_of_testBit_eq
      intro i
      have h2 := congrArg (fun x => x.testBit i) h
      simp only [Nat.testBit_or, Nat.zero_testBit, Bool.or_eq_false_iff] at h2
      simp [h2.1]
    · apply Nat.eq_of_testBit_eq
      intro i
      have h2 := congrArg (fun x => x.testBit i) h
      simp only [Nat.testBit_or, Nat.zero_testBit, Bool.or_eq_false_iff] at h2
      simp [h2.2]
  · rintro ⟨rfl, rfl⟩
    rfl

theorem foldl_or_eq_zero (l : List (Nat × Nat)) :
    ∀ acc : Nat, (l.foldl (fun r q => r ||| (q.1 ^^^ q.2)) acc = 0) ↔
      (acc = 0 ∧ ∀ q ∈ l, q.1 = q.2) := by
  induction l with
  | nil => simp
  | cons q t ih =>
    intro acc
    rw [List.foldl_cons, ih, nat_or_eq_zero_iff, Nat.xor_eq_zero]
    constructor
    · rintro ⟨⟨h1, h2⟩, h3⟩
      refine ⟨h1, ?_⟩
      intro x hx
      rcases List.mem_cons.mp hx with hx | hx
      · subst hx; exact h2
      · exact h3 x hx
    · rintro ⟨h1, h2⟩
      exact ⟨⟨h1, h2 q (List.mem_cons_self q t)⟩, fun x hx => h2 x (List.mem_cons_of_mem _ hx)⟩

theorem zip_all_eq : ∀ (a b : JSStr), a.length = b.length →
    ((∀ q ∈ a.zip b, q.1 = q.2) ↔ a = b) := by
  intro a
  induction a with
  | nil =>
    intro b hb
    cases b with
    | nil => simp
    | cons y u => simp at hb
  | cons x t ih =>
    intro b hb
    cases b with
    | nil => simp at hb
    | cons y u =>
      have hlen : t.length = u.length := by simpa using hb
      constructor
      · intro hall
        have hxy : x = y := hall (x, y) (by simp [List.zip_cons_cons])
        have hrest : t = u :=
          (ih u hlen).mp (fun q hq => hall q (by simp [List.zip_cons_cons, hq]))
        rw [hxy, hrest]
      · intro heq
        injection heq with h1 h2
        subst h1; subst h2
        intro q hq
        simp only [List.zip_cons_cons, List.mem_cons] at hq
        rcases hq with hq | hq
        · subst hq; rfl
        · exact ((ih t rfl).mpr rfl) q hq

/-- The constant-time loop over equal-length strings is zero exactly on
equal strings. -/
theorem ctCompareLoop_eq_zero_iff (a b : JSStr) (h : a.length = b.length) :
    ctCompareLoop a b = 0 ↔ a = b := by
  unfold ctCompareLoop
  rw [foldl_or_eq_zero]
  constructor
  · rintro ⟨_, hall⟩
    exact (zip_all_eq a b h).mp hall
  · intro heq
    exact ⟨rfl, (zip_all_eq a b h).mpr heq⟩

/-! Facts about `encryptMessage` / `decryptMessage`. -/

theorem encryptMessage_ciphertext (p : CryptoPrims) (key iv : Bytes) (pt : JSStr) :
    (encryptMessage p key iv pt).ciphertext =
      arrayBufferToBase64 (ctrXor (p.ks key iv) 0 (textEncoderEncode pt)) := by
  unfold encryptMessage
  simp only []
  congr 1
  have hlen : (p.gtag key iv (ctrXor (p.ks key iv) 0 (textEncoderEncode pt))).length = 16 :=
    p.gtag_length _ _ _
  rw [List.length_append, hlen]
  rw [show (ctrXor (p.ks key iv) 0 (textEncoderEncode pt)).length + 16 - 16 =
    (ctrXor (p.ks key iv) 0 (textEncoderEncode pt)).length by omega]
  exact List.take_left _ _

theorem encryptMessage_authTag (p : CryptoPrims) (key iv : Bytes) (pt : JSStr) :
    (encryptMessage p key iv pt).authTag =
      arrayBufferToBase64
        (p.gtag key iv (ctrXor (p.ks key iv) 0 (textEncoderEncode pt))) := by
  unfold encryptMessage
  simp only []
  congr 1
  have hlen : (p.gtag key iv (ctrXor (p.ks key iv) 0 (textEncoderEncode pt))).length = 16 :=
    p.gtag_length _ _ _
  rw [List.length_append, hlen]
  rw [show (ctrXor (p.ks key iv) 0 (textEncoderEncode pt)).length + 16 - 16 =
    (ctrXor (p.ks key iv) 0 (textEncoderEncode pt)).length by omega]
  exact List.drop_left _ _

theorem encryptMessage_iv (p : CryptoPrims) (key iv : Bytes) (pt : JSStr) :
    (encryptMessage p key iv pt).iv = arrayBufferToBase64 iv := rfl

/-- Decrypting base64-delivered raw parts: unfolded form of `decryptMessage`
on well-formed byte buffers. -/
theorem decryptMessage_of_bytes (p : CryptoPrims) (key : Bytes)
    (ctB tagB ivB : Bytes) (hct : ∀ b ∈ ctB, b < 256) (htag : ∀ b ∈ tagB, b < 256)
    (hiv : ∀ b ∈ ivB, b < 256) (hlen : tagB.length = 16) :
    decryptMessage p key (arrayBufferToBase64 ctB) (arrayBufferToBase64 ivB)
        (arrayBufferToBase64 tagB) =
      (if tagB = p.gtag key ivB ctB then
        Except.ok (textDecoderDecode (ctrXor (p.ks key ivB) 0 ctB))
      else Except.error DecryptError.authenticationFailed) := by
  unfold decryptMessage
  rw [base64_roundtrip ctB hct, base64_roundtrip tagB htag, base64_roundtrip ivB hiv]
  simp only []
  have hl : (ctB ++ tagB).length = ctB.length + 16 := by
    rw [List.length_append, hlen]
  rw [if_neg (by omega)]
  have hn : (ctB ++ tagB).length - 16 = ctB.length := by omega
  rw [hn, List.take_left, List.drop_left]

/-- AES-GCM round trip at byte level: under the structural GCM model the
tag recomputes identically and CTR xor is an involution. -/
theorem decryptMessage_encryptMessage (p : CryptoPrims) (key iv : Bytes) (pt : JSStr)
    (hiv : ∀ b ∈ iv, b < 256) (hpt : ∀ c ∈ pt, ScalarCP c) :
    decryptMessage p key (encryptMessage p key iv pt).ciphertext
        (encryptMessage p key iv pt).iv (encryptMessage p key iv pt).authTag =
      Except.ok pt := by
  have hptb : ∀ b ∈ textEncoderEncode pt, b < 256 := textEncoderEncode_lt pt hpt
  have hct : ∀ b ∈ ctrXor (p.ks key iv) 0 (textEncoderEncode pt), b < 256 :=
    ctrXor_lt _ (fun i => p.ks_lt key iv i) 0 _ hptb
  rw [encryptMessage_ciphertext, encryptMessage_authTag, encryptMessage_iv]
  rw [decryptMessage_of_bytes p key _ _ iv hct (p.gtag_lt _ _ _) hiv (p.gtag_length _ _ _)]
  rw [if_pos rfl, ctrXor_ctrXor, utf8_roundtrip pt hpt]

/-! ### Single-bit flips -/

/-- Flip bit `k` of byte `i` of a buffer. -/
def flipBit (bs : Bytes) (i k : Nat) : Bytes := bs.set i (bs.getD i 0 ^^^ 2 ^ k)

theorem getD_lt (bs : Bytes) (i : Nat) (h : ∀ b ∈ bs, b < 256) : bs.getD i 0 < 256 := by
  rw [List.getD_eq_getElem?_getD]
  cases hg : bs[i]? with
  | none => simp
  | some x =>
    have hx : x ∈ bs := by
      have := List.get?_mem (by rw [List.get?_eq_getElem?]; exact hg)
      exact this
    simpa using h x hx

theorem flipBit_lt (bs : Bytes) (i k : Nat) (h : ∀ b ∈ bs, b < 256) (hk : k < 8) :
    ∀ b ∈ flipBit bs i k, b < 256 := by
  intro b hb
  rcases List.mem_or_eq_of_mem_set hb with hb | hb
  · exact h b hb
  · subst hb
    have h1 : bs.getD i 0 < 2 ^ 8 := getD_lt bs i h
    have h2 : 2 ^ k < 2 ^ 8 := Nat.pow_lt_pow_right (by omega) hk
    exact Nat.xor_lt_two_pow h1 h2

theorem xor_two_pow_ne_self (b k : Nat) : b ^^^ 2 ^ k ≠ b := by
  intro h
  have h2 : b ^^^ (b ^^^ 2 ^ k) = b ^^^ b := congrArg (fun x => b ^^^ x) h
  rw [← Nat.xor_assoc, Nat.xor_self, Nat.zero_xor] at h2
  have := Nat.two_pow_pos k
  omega

theorem flipBit_ne (bs : Bytes) (i k : Nat) (hi : i < bs.length) :
    flipBit bs i k ≠ bs := by
  intro h
  have h1 : (flipBit bs i k)[i]? = some (bs.getD i 0 ^^^ 2 ^ k) := by
    unfold flipBit
    rw [List.getElem?_set_self (by simpa using hi)]
  have h2 : bs[i]? = some bs[i] := List.getElem?_eq_getElem hi
  rw [h] at h1
  rw [h2] at h1
  have h3 : bs.getD i 0 = bs[i] := by
    simp [List.getD_eq_getElem?_getD, List.getElem?_eq_getElem, hi]
  rw [h3] at h1
  have h4 : bs[i] = bs[i] ^^^ 2 ^ k := Option.some.inj h1
  exact xor_two_pow_ne_self bs[i] k h4.symm

theorem flipBit_length (bs : Bytes) (i k : Nat) : (flipBit bs i k).length = bs.length := by
  simp [flipBit]

/-! ### `lib/indexed-db.ts` -/

/-- A record of the `keys` object store. -/
structure StoredKeys where
  publicKey : JSStr
  privateKey : JSStr
  deriving DecidableEq, Repr

/-- Lexicographic comparison of JS strings (default `Array.sort` order). -/
def jstrLe : JSStr → JSStr → Bool
  | [], _ => true
  | _ :: _, [] => false
  | a :: as, b :: bs => if a < b then true else if b < a then false else jstrLe as bs

/-- Model of `getSessionId(userId1, userId2)`: the two ids sorted and joined with a
dash, so both users derive the same id. -/
def getSessionId (u1 u2 : JSStr) : JSStr :=
  if jstrLe u1 u2 then u1 ++ jstr "-" ++ u2 else u2 ++ jstr "-" ++ u1

/-- Model of `store.put` of an IndexedDB object store keyed by `id` (upsert). -/
def dbPut (db : List (JSStr × StoredKeys)) (id : JSStr) (v : StoredKeys) :
    List (JSStr × StoredKeys) :=
  match db with
  | [] => [(id, v)]
  | (k, w) :: rest => if k = id then (id, v) :: rest else (k, w) :: dbPut rest id v

/-- Model of `store.get` of the object store. -/
def dbGet (db : List (JSStr × StoredKeys)) (id : JSStr) : Option StoredKeys :=
  match db with
  | [] => none
  | (k, w) :: rest => if k = id then some w else dbGet rest id

/-- Model of `Map.set` over an association list. -/
def alistPut {α : Type} (l : List (JSStr × α)) (k : JSStr) (v : α) : List (JSStr × α) :=
  match l with
  | [] => [(k, v)]
  | (k2, w) :: rest => if k2 = k then (k, v) :: rest else (k2, w) :: alistPut rest k v

/-- Model of `Map.get` over an association list. -/
def alistGet {α : Type} (l : List (JSStr × α)) (k : JSStr) : Option α :=
  match l with
  | [] => none
  | (k2, w) :: rest => if k2 = k then some w else alistGet rest k

/-- Model of `Set.add` over a list (no duplicate insertion). -/
def idInsert (l : List JSStr) (x : JSStr) : List JSStr :=
  if x ∈ l then l else x :: l

/-! ### `hooks/use-crypto.ts`

The hook's React state (`identityKeyPair`, `sessionKeys`, `currentUserId`,
`confirmedSessions`) and the IndexedDB store are modelled as one explicit
state record; each hook function takes and returns it.  `Date.now()` and the
random outputs of `generateECDHKeyPair` / `generateNonce` / `generateIV` are
passed as explicit inputs. -/
structure CryptoState where
  identityKeyPair : Option Nat
  sessionKeys : List (JSStr × Bytes)
  currentUserId : Option JSStr
  confirmedSessions : List JSStr
  indexedDB : List (JSStr × StoredKeys)
  deriving DecidableEq, Repr

inductive KxError where
  | identityNotLoaded
  | noCurrentUser
  | timestampExpired
  | invalidSignature
  | noSessionKey
  deriving DecidableEq, Repr

/-- Result of `initiateKeyExchange`. -/
structure InitResult where
  ephemeralPublicKey : JSStr
  signature : JSStr
  timestamp : Nat
  nonce : JSStr
  ephemeralPrivateKey : Nat
  deriving DecidableEq, Repr

/-- Model of `initiateKeyExchange(recipientId, recipientPublicKey)`: sign the fresh
ephemeral public key together with recipient id, timestamp and nonce.  Does
not modify any state. -/
def initiateKeyExchange (p : CryptoPrims) (st : CryptoState) (now : Nat)
    (ephPriv : Nat) (nonce : JSStr) (recipientId _recipientPublicKey : JSStr) :
    Except KxError InitResult :=
  match st.identityKeyPair with
  | none => .error .identityNotLoaded
  | some sk =>
    let ephemeralPublicKey := p.dhPub ephPriv
    let dataToSign := ephemeralPublicKey ++ jstr ":" ++ recipientId ++ jstr ":" ++
      natToJStr now ++ jstr ":" ++ nonce
    .ok { ephemeralPublicKey := ephemeralPublicKey
          signature := signData p sk dataToSign
          timestamp := now
          nonce := nonce
          ephemeralPrivateKey := ephPriv }

/-- Result of `respondToKeyExchange`. -/
structure RespondResult where
  responseEphemeralPublicKey : JSStr
  responseSignature : JSStr
  responseTimestamp : Nat
  responseNonce : JSStr
  sessionKey : Bytes
  deriving DecidableEq, Repr

/-- Model of `respondToKeyExchange(senderId, senderPublicKey, ephemeralPublicKey,
signature, timestamp, nonce)`: verify window and signature, then derive and
store the candidate session key and answer with a signed response.  All
state writes (IndexedDB `storeKeys`, `setSessionKeys`) happen after the
checks, so any error leaves the state unchanged. -/
def respondToKeyExchange (p : CryptoPrims) (st : CryptoState) (now : Nat)
    (respEphPriv : Nat) (respNonce : JSStr)
    (senderId senderPublicKey ephemeralPublicKey signature : JSStr)
    (timestamp : Nat) (nonce : JSStr) :
    Except KxError RespondResult × CryptoState :=
  match st.identityKeyPair with
  | none => (.error .identityNotLoaded, st)
  | some sk =>
    match st.currentUserId with
    | none => (.error .noCurrentUser, st)
    | some uid =>
      if absDiff now timestamp > 5 * 60 * 1000 then (.error .timestampExpired, st)
      else
        let dataToVerify := ephemeralPublicKey ++ jstr ":" ++ uid ++ jstr ":" ++
          natToJStr timestamp ++ jstr ":" ++ nonce
        if verifySignature p senderPublicKey signature dataToVerify = false then
          (.error .invalidSignature, st)
        else
          let responseEphemeralPublicKey := p.dhPub respEphPriv
          let responseDataToSign := responseEphemeralPublicKey ++ jstr ":" ++ senderId ++
            jstr ":" ++ natToJStr now ++ jstr ":" ++ respNonce
          let responseSignature := signData p sk responseDataToSign
          let sharedSecret := deriveSharedSecret p respEphPriv ephemeralPublicKey
          let salt := nonce ++ jstr ":" ++ respNonce
          let info := jstr "session:" ++ senderId ++ jstr ":" ++ uid
          let sessionKey := deriveSessionKey p sharedSecret salt info
          let sessionId := getSessionId uid senderId
          let exportedKey := exportSessionKey sessionKey
          (.ok { responseEphemeralPublicKey := responseEphemeralPublicKey
                 responseSignature := responseSignature
                 responseTimestamp := now
                 responseNonce := respNonce
                 sessionKey := sessionKey },
           { st with
              indexedDB := dbPut st.indexedDB (jstr "session-" ++ sessionId)
                { publicKey := responseEphemeralPublicKey, privateKey := exportedKey }
              sessionKeys := alistPut st.sessionKeys senderId sessionKey })

/-- Model of `completeKeyExchange(recipientId, recipientPublicKey,
responseEphemeralPublicKey, responseSignature, responseTimestamp,
responseNonce, originalNonce, ephemeralPrivateKey)`. -/
def completeKeyExchange (p : CryptoPrims) (st : CryptoState) (now : Nat)
    (recipientId recipientPublicKey responseEphemeralPublicKey responseSignature : JSStr)
    (responseTimestamp : Nat) (responseNonce originalNonce : JSStr)
    (ephemeralPrivateKey : Nat) :
    Except KxError Bytes × CryptoState :=
  match st.identityKeyPair with
  | none => (.error .identityNotLoaded, st)
  | some _sk =>
    match st.currentUserId with
    | none => (.error .noCurrentUser, st)
    | some uid =>
      if absDiff now responseTimestamp > 5 * 60 * 1000 then (.error .timestampExpired, st)
      else
        let dataToVerify := responseEphemeralPublicKey ++ jstr ":" ++ uid ++ jstr ":" ++
          natToJStr responseTimestamp ++ jstr ":" ++ responseNonce
        if verifySignature p recipientPublicKey responseSignature dataToVerify = false then
          (.error .invalidSignature, st)
        else
          let sharedSecret := deriveSharedSecret p ephemeralPrivateKey responseEphemeralPublicKey
          let salt := originalNonce ++ jstr ":" ++ responseNonce
          let info := jstr "session:" ++ uid ++ jstr ":" ++ recipientId
          let sessionKey := deriveSessionKey p sharedSecret salt info
          let sessionId := getSessionId uid recipientId
          let exportedKey := exportSessionKey sessionKey
          (.ok sessionKey,
           { st with
              indexedDB := dbPut st.indexedDB (jstr "session-" ++ sessionId)
                { publicKey := responseEphemeralPublicKey, privateKey := exportedKey }
              sessionKeys := alistPut st.sessionKeys recipientId sessionKey })

/-- Model of `loadSessionKeyInternal(recipientId)`: memory map first, then IndexedDB;
no state update.  (A stored record whose key fails to import maps to `none`,
where the JS would reject.) -/
def loadSessionKeyInternal (st : CryptoState) (recipientId : JSStr) : Option Bytes :=
  match alistGet st.sessionKeys recipientId with
  | some k => some k
  | none =>
    match st.currentUserId with
    | none => none
    | some uid =>
      match dbGet st.indexedDB (jstr "session-" ++ getSessionId uid recipientId) with
      | none => none
      | some stored => importSessionKey stored.privateKey

/-- Result of `createKeyConfirmation`. -/
structure CreateConfResult where
  confirmationHash : JSStr
  confirmationNonce : JSStr
  timestamp : Nat
  deriving DecidableEq, Repr

/-- Model of `createKeyConfirmation(recipientId, originalNonce)` with the fresh
confirmation nonce explicit. -/
def createKeyConfirmation (p : CryptoPrims) (st : CryptoState) (now : Nat)
    (confNonce : JSStr) (recipientId originalNonce : JSStr) :
    Except KxError CreateConfResult :=
  match st.currentUserId with
  | none => .error .noCurrentUser
  | some uid =>
    match loadSessionKeyInternal st recipientId with
    | none => .error .noSessionKey
    | some sessionKey =>
      let kc := generateKeyConfirmation p sessionKey uid recipientId originalNonce confNonce
      .ok { confirmationHash := kc.confirmationHash
            confirmationNonce := kc.confirmationNonce
            timestamp := now }

/-- Model of `verifyReceivedKeyConfirmation(senderId, confirmationHash,
confirmationNonce, originalNonce)`: verify and, on success, add the sender
to `confirmedSessions`. -/
def verifyReceivedKeyConfirmation (p : CryptoPrims) (st : CryptoState)
    (senderId confirmationHash confirmationNonce originalNonce : JSStr) :
    Except KxError Bool × CryptoState :=
  match st.currentUserId with
  | none => (.error .noCurrentUser, st)
  | some uid =>
    match loadSessionKeyInternal st senderId with
    | none => (.error .noSessionKey, st)
    | some sessionKey =>
      let isValid := verifyKeyConfirmation p sessionKey senderId uid originalNonce
        confirmationNonce confirmationHash
      if isValid then
        (.ok true, { st with confirmedSessions := idInsert st.confirmedSessions senderId })
      else (.ok false, st)

/-- Model of `markSessionConfirmed(recipientId)`. -/
def markSessionConfirmed (st : CryptoState) (recipientId : JSStr) : CryptoState :=
  { st with confirmedSessions := idInsert st.confirmedSessions recipientId }

/-- Model of `isSessionConfirmed(recipientId)`. -/
def isSessionConfirmed (st : CryptoState) (recipientId : JSStr) : Bool :=
  st.confirmedSessions.contains recipientId

/-- Model of `loadSessionKey(recipientId)`: like the internal helper but caches an
IndexedDB hit back into the memory map. -/
def loadSessionKey (st : CryptoState) (recipientId : JSStr) :
    Option Bytes × CryptoState :=
  match alistGet st.sessionKeys recipientId with
  | some k => (some k, st)
  | none =>
    match st.currentUserId with
    | none => (none, st)
    | some uid =>
      match dbGet st.indexedDB (jstr "session-" ++ getSessionId uid recipientId) with
      | none => (none, st)
      | some stored =>
        match importSessionKey stored.privateKey with
        | none => (none, st)
        | some k => (some k, { st with sessionKeys := alistPut st.sessionKeys recipientId k })

/-- Model of `storeSessionKeyForUser(recipientId, exportedKey)`: install a key
delivered from outside; writes it to IndexedDB, the memory map, and marks
the session confirmed without any confirmation round. -/
def storeSessionKeyForUser (st : CryptoState) (recipientId exportedKey : JSStr) :
    CryptoState :=
  match st.currentUserId with
  | none => st
  | some uid =>
    let sessionId := getSessionId uid recipientId
    let st2 := { st with
      indexedDB := dbPut st.indexedDB (jstr "session-" ++ sessionId)
        { publicKey := jstr "", privateKey := exportedKey } }
    match importSessionKey exportedKey with
    | none => st2
    | some k =>
      { st2 with
        sessionKeys := alistPut st2.sessionKeys recipientId k
        confirmedSessions := idInsert st2.confirmedSessions recipientId }

/-- Model of `encrypt(recipientId, plaintext)` with the fresh IV and envelope nonce
explicit: loads the session key (memory or IndexedDB — nothing else) and
runs `encryptMessage`. -/
def encrypt (p : CryptoPrims) (st : CryptoState) (ivBytes : Bytes) (msgNonce : JSStr)
    (recipientId plaintext : JSStr) :
    Except KxError (EncryptedPayload × JSStr) × CryptoState :=
  match loadSessionKey st recipientId with
  | (none, st2) => (.error .noSessionKey, st2)
  | (some key, st2) => (.ok (encryptMessage p key ivBytes plaintext, msgNonce), st2)

inductive ClientDecryptError where
  | noSessionKey
  | decryptFailed (e : DecryptError)
  deriving DecidableEq, Repr

/-- Model of `decrypt(senderId, ciphertext, iv, authTag)`. -/
def decrypt (p : CryptoPrims) (st : CryptoState)
    (senderId ciphertext iv authTag : JSStr) :
    Except ClientDecryptError JSStr × CryptoState :=
  match loadSessionKey st senderId with
  | (none, st2) => (.error .noSessionKey, st2)
  | (some key, st2) =>
    match decryptMessage p key ciphertext iv authTag with
    | .ok s => (.ok s, st2)
    | .error e => (.error (.decryptFailed e), st2)

/-! ### `src/server/index.ts` — `POST /api/messages` (Replay & Ordering Guard)

The MongoDB `messages` collection is a list of stored documents; inserts
append.  Ids and payload fields are Lean strings (empty string = JS falsy),
epoch timestamps are integers, `Date.now()` is an explicit `now` input. -/

/-- A document of the `messages` collection. -/
structure StoredMsg where
  senderId : String
  recipientId : String
  ciphertext : String
  iv : String
  authTag : String
  nonce : String
  sequenceNumber : Int
  timestamp : Int
  deriving DecidableEq, Repr

/-- The parsed request body; `sequenceNumber` is `none` when absent or not a
number, `timestamp` is `none` when `timestamp == null`. -/
structure MsgRequest where
  senderId : String
  recipientId : String
  ciphertext : String
  iv : String
  authTag : String
  nonce : String
  sequenceNumber : Option Int
  timestamp : Option Int
  deriving DecidableEq, Repr

inductive MsgReject where
  | missingFields
  | invalidSequence
  | timestampOutOfRange
  | replayNonce
  | nonMonotonicSequence
  | nonMonotonicTimestamp
  deriving DecidableEq, Repr

/-- One step of scanning for the pair's maximal-sequence message. -/
def lmfStep (senderId recipientId : String) (acc : Option StoredMsg) (m : StoredMsg) :
    Option StoredMsg :=
  if m.senderId = senderId ∧ m.recipientId = recipientId then
    match acc with
    | none => some m
    | some best => if best.sequenceNumber < m.sequenceNumber then some m else some best
  else acc

/-- Model of `messagesCollection.find({senderId, recipientId}).sort({sequenceNumber:
-1}).limit(1)`: a stored message of the ordered pair with maximal sequence
number (first such in insertion order). -/
def lastMessageFor (msgs : List StoredMsg) (senderId recipientId : String) :
    Option StoredMsg :=
  msgs.foldl (lmfStep senderId recipientId) none

/-- The read-and-validate phase of the handler, in source order: field
presence, sequence-number type, 5-minute timestamp window, duplicate nonce
for the same (sender, recipient), then per-pair sequence and timestamp
monotonicity against the last stored message. -/
def admitCheck (msgs : List StoredMsg) (now : Int) (r : MsgRequest) :
    Except MsgReject (Int × Int) :=
  if r.senderId = "" ∨ r.recipientId = "" ∨ r.ciphertext = "" ∨ r.iv = "" ∨
      r.authTag = "" ∨ r.nonce = "" ∨ r.timestamp = none then
    .error .missingFields
  else
    match r.sequenceNumber, r.timestamp with
    | none, _ => .error .invalidSequence
    | some _, none => .error .missingFields
    | some seq, some ts =>
      if (now - ts).natAbs > 5 * 60 * 1000 then .error .timestampOutOfRange
      else if msgs.any (fun m =>
          m.nonce = r.nonce ∧ m.senderId = r.senderId ∧ m.recipientId = r.recipientId) then
        .error .replayNonce
      else
        match lastMessageFor msgs r.senderId r.recipientId with
        | some last =>
          if seq ≤ last.sequenceNumber then .error .nonMonotonicSequence
          else if ts ≤ last.timestamp then .error .nonMonotonicTimestamp
          else .ok (seq, ts)
        | none => .ok (seq, ts)

/-- The stored document built from an admitted request. -/
def mkStoredMsg (r : MsgRequest) (seq ts : Int) : StoredMsg :=
  { senderId := r.senderId
    recipientId := r.recipientId
    ciphertext := r.ciphertext
    iv := r.iv
    authTag := r.authTag
    nonce := r.nonce
    sequenceNumber := seq
    timestamp := ts }

/-- The whole `POST /api/messages` handler run without interleaving:
validate, then insert. -/
def messagesPost (msgs : List StoredMsg) (now : Int) (r : MsgRequest) :
    Except MsgReject StoredMsg × List StoredMsg :=
  match admitCheck msgs now r with
  | .error rej => (.error rej, msgs)
  | .ok (seq, ts) => (.ok (mkStoredMsg r seq ts), msgs ++ [mkStoredMsg r seq ts])

/-! Interleaving model of the same handler: the check phase (reads) and the
insert phase (write) are separated by `await` points, so two requests can
interleave. -/

/-- One in-flight `POST /api/messages` request: `pc = 0` before the checks,
`pc = 1` checks passed but not yet inserted, `pc = 2` finished. -/
structure AdmitProc where
  req : MsgRequest
  now : Int
  pc : Nat
  accepted : Option Bool
  deriving DecidableEq, Repr

/-- Run one atomic step of a request against the shared collection. -/
def procStep (msgs : List StoredMsg) (pr : AdmitProc) : List StoredMsg × AdmitProc :=
  if pr.pc = 0 then
    match admitCheck msgs pr.now pr.req with
    | .error _ => (msgs, { pr with pc := 2, accepted := some false })
    | .ok _ => (msgs, { pr with pc := 1 })
  else if pr.pc = 1 then
    match pr.req.sequenceNumber, pr.req.timestamp with
    | some seq, some ts =>
      (msgs ++ [mkStoredMsg pr.req seq ts], { pr with pc := 2, accepted := some true })
    | _, _ => (msgs, { pr with pc := 2, accepted := some false })
  else (msgs, pr)

/-- Run two concurrent requests under a schedule (`false` steps the first
request, `true` the second). -/
def runSchedule : List Bool → List StoredMsg × AdmitProc × AdmitProc →
    List StoredMsg × AdmitProc × AdmitProc
  | [], s => s
  | b :: rest, (msgs, p0, p1) =>
    if b then
      let (m2, p1') := procStep msgs p1
      runSchedule rest (m2, p0, p1')
    else
      let (m2, p0') := procStep msgs p0
      runSchedule rest (m2, p0', p1)

/-! ### `src/server/index.ts` — `POST /api/session-key` and
`GET /api/session-key` -/

/-- A document of the `sessions` collection. -/
structure SessionRecord where
  sessionId : String
  exportedKey : String
  createdAt : Int
  deriving DecidableEq, Repr

/-- JS string comparison (code-unit lexicographic), as used by the default
`Array.sort`. -/
def jsStrLtB : List Char → List Char → Bool
  | [], [] => false
  | [], _ :: _ => true
  | _ :: _, [] => false
  | a :: as, b :: bs =>
    if a.toNat < b.toNat then true
    else if b.toNat < a.toNat then false
    else jsStrLtB as bs

/-- Model of `[userId1, userId2].sort().join(":")`. -/
def sortJoinColon (u1 u2 : String) : String :=
  if jsStrLtB u2.data u1.data then u2 ++ ":" ++ u1 else u1 ++ ":" ++ u2

/-- Model of `updateOne({sessionId}, {$set: ...}, {upsert: true})`. -/
def sessionsUpsert (l : List SessionRecord) (r : SessionRecord) : List SessionRecord :=
  match l with
  | [] => [r]
  | x :: rest => if x.sessionId = r.sessionId then r :: rest else x :: sessionsUpsert rest r

/-- The `POST /api/session-key` handler: stores the client-supplied raw
exported session key, keyed by the symmetric session id. -/
def sessionKeyPost (sessions : List SessionRecord) (now : Int)
    (userId1 userId2 exportedKey : String) : Bool × List SessionRecord :=
  if userId1 = "" ∨ userId2 = "" ∨ exportedKey = "" then (false, sessions)
  else
    (true,
     sessionsUpsert sessions
       { sessionId := sortJoinColon userId1 userId2
         exportedKey := exportedKey
         createdAt := now })

/-- The `GET /api/session-key` handler: returns the stored raw exported key
for the pair, when present. -/
def sessionKeyGet (sessions : List SessionRecord) (userId1 userId2 : String) :
    Option String :=
  (sessions.find? (fun r => r.sessionId = sortJoinColon userId1 userId2)).map
    (fun r => r.exportedKey)

/-! ### `src/app/api/messages/route.ts` with `lib/mongodb.ts` nonce store -/

/-- A document of the Next.js route's `messages` collection. -/
structure NextStoredMsg where
  senderId : String
  recipientId : String
  ciphertext : String
  iv : String
  authTag : String
  nonce : String
  timestamp : Int
  sequenceNumber : Int
  deriving DecidableEq, Repr

/-- Request body of the Next.js route (`sequenceNumber` optional). -/
structure NextMsgRequest where
  senderId : String
  recipientId : String
  ciphertext : String
  iv : String
  authTag : String
  nonce : String
  sequenceNumber : Option Int
  deriving DecidableEq, Repr

/-- State owned by the Next.js route: the stored messages and the global
`nonces` collection. -/
structure NextState where
  messages : List NextStoredMsg
  usedNonces : List String
  deriving DecidableEq, Repr

inductive NextReject where
  | missingFields
  | replayNonce
  deriving DecidableEq, Repr

/-- Model of `store.isNonceUsed(nonce)`: `countDocuments({nonce}) > 0` over the
global nonce collection. -/
def isNonceUsed (st : NextState) (nonce : String) : Bool :=
  st.usedNonces.contains nonce

/-- Model of `store.markNonceUsed(nonce)`. -/
def markNonceUsed (st : NextState) (nonce : String) : NextState :=
  { st with usedNonces := st.usedNonces ++ [nonce] }

/-- JavaScript `sequenceNumber || 0`: absent or zero becomes `0`. -/
def jsOrZero (o : Option Int) : Int :=
  match o with
  | none => 0
  | some n => if n = 0 then 0 else n

/-- The Next.js `POST /api/messages` handler: field presence, then the
global nonce check; no sequence or timestamp comparison against stored
messages; the stored timestamp is the server's `Date.now()`. -/
def nextMessagesPost (st : NextState) (now : Int) (r : NextMsgRequest) :
    Except NextReject NextStoredMsg × NextState :=
  if r.senderId = "" ∨ r.recipientId = "" ∨ r.ciphertext = "" ∨ r.iv = "" ∨
      r.authTag = "" ∨ r.nonce = "" then
    (.error .missingFields, st)
  else if isNonceUsed st r.nonce then (.error .replayNonce, st)
  else
    let st2 := markNonceUsed st r.nonce
    let msg : NextStoredMsg :=
      { senderId := r.senderId
        recipientId := r.recipientId
        ciphertext := r.ciphertext
        iv := r.iv
        authTag := r.authTag
        nonce := r.nonce
        timestamp := now
        sequenceNumber := jsOrZero r.sequenceNumber }
    (.ok msg, { st2 with messages := st2.messages ++ [msg] })

/-! Facts about `lastMessageFor` and `admitCheck`. -/

theorem lmf_fold_dominates (s r : String) :
    ∀ (msgs : List StoredMsg) (acc : Option StoredMsg) (b : StoredMsg),
      acc = some b →
      ∃ best, msgs.foldl (lmfStep s r) acc = some best ∧
        b.sequenceNumber ≤ best.sequenceNumber := by
  intro msgs
  induction msgs with
  | nil =>
    intro acc b hb
    exact ⟨b, by simp [hb], le_refl _⟩
  | cons m t ih =>
    intro acc b hb
    subst hb
    simp only [List.foldl_cons]
    by_cases hm : m.senderId = s ∧ m.recipientId = r
    · by_cases hlt : b.sequenceNumber < m.sequenceNumber
      · have hstep : lmfStep s r (some b) m = some m := by simp [lmfStep, hm, hlt]
        rw [hstep]
        obtain ⟨best, h1, h2⟩ := ih (some m) m rfl
        exact ⟨best, h1, by omega⟩
      · have hstep : lmfStep s r (some b) m = some b := by simp [lmfStep, hm, hlt]
        rw [hstep]
        exact ih (some b) b rfl
    · have hstep : lmfStep s r (some b) m = some b := by simp [lmfStep, hm]
      rw [hstep]
      exact ih (some b) b rfl

theorem lmf_fold_max (s r : String) :
    ∀ (msgs : List StoredMsg) (acc : Option StoredMsg) (m : StoredMsg),
      m ∈ msgs → m.senderId = s → m.recipientId = r →
      ∃ best, msgs.foldl (lmfStep s r) acc = some best ∧
        m.sequenceNumber ≤ best.sequenceNumber := by
  intro msgs
  induction msgs with
  | nil => intro acc m hm; simp at hm
  | cons x t ih =>
    intro acc m hm hs hr
    rcases List.mem_cons.mp hm with hm | hm
    · subst hm
      simp only [List.foldl_cons]
      cases acc with
      | none =>
        have hstep : lmfStep s r none m = some m := by simp [lmfStep, hs, hr]
        rw [hstep]
        exact lmf_fold_dominates s r t (some m) m rfl
      | some best =>
        by_cases hlt : best.sequenceNumber < m.sequenceNumber
        · have hstep : lmfStep s r (some best) m = some m := by simp [lmfStep, hs, hr, hlt]
          rw [hstep]
          exact lmf_fold_dominates s r t (some m) m rfl
        · have hstep : lmfStep s r (some best) m = some best := by
            simp [lmfStep, hs, hr, hlt]
          rw [hstep]
          obtain ⟨b2, h1, h2⟩ := lmf_fold_dominates s r t (some best) best rfl
          exact ⟨b2, h1, by omega⟩
    · simp only [List.foldl_cons]
      exact ih (lmfStep s r acc x) m hm hs hr

theorem lmf_fold_from (s r : String) :
    ∀ (msgs : List StoredMsg) (acc : Option StoredMsg) (best : StoredMsg),
      msgs.foldl (lmfStep s r) acc = some best →
      acc = some best ∨ (best ∈ msgs ∧ best.senderId = s ∧ best.recipientId = r) := by
  intro msgs
  induction msgs with
  | nil =>
    intro acc best h
    simp at h
    exact Or.inl (by rw [h])
  | cons m t ih =>
    intro acc best h
    simp only [List.foldl_cons] at h
    rcases ih (lmfStep s r acc m) best h with h2 | h2
    · by_cases hm : m.senderId = s ∧ m.recipientId = r
      · cases acc with
        | none =>
          simp only [lmfStep, if_pos hm] at h2
          have hbm : m = best := Option.some.inj h2
          subst hbm
          exact Or.inr ⟨by simp, hm.1, hm.2⟩
        | some b =>
          by_cases hlt : b.sequenceNumber < m.sequenceNumber
          · have hstep : lmfStep s r (some b) m = some m := by simp [lmfStep, hm, hlt]
            rw [hstep] at h2
            have hbm : m = best := Option.some.inj h2
            subst hbm
            exact Or.inr ⟨by simp, hm.1, hm.2⟩
          · have hstep : lmfStep s r (some b) m = some b := by simp [lmfStep, hm, hlt]
            rw [hstep] at h2
            exact Or.inl h2
      · have hstep : lmfStep s r acc m = acc := by simp [lmfStep, hm]
        rw [hstep] at h2
        exact Or.inl h2
    · exact Or.inr ⟨List.mem_cons_of_mem m h2.1, h2.2⟩

theorem lastMessageFor_mem (msgs : List StoredMsg) (s r : String) (best : StoredMsg)
    (h : lastMessageFor msgs s r = some best) :
    best ∈ msgs ∧ best.senderId = s ∧ best.recipientId = r := by
  rcases lmf_fold_from s r msgs none best h with h2 | h2
  · simp at h2
  · exact h2

theorem lastMessageFor_max (msgs : List StoredMsg) (s r : String) (m : StoredMsg)
    (hm : m ∈ msgs) (hs : m.senderId = s) (hr : m.recipientId = r) :
    ∃ best, lastMessageFor msgs s r = some best ∧
      m.sequenceNumber ≤ best.sequenceNumber :=
  lmf_fold_max s r msgs none m hm hs hr

/-- Appending a pair message that strictly dominates every stored pair
message makes it the pair's last message. -/
theorem lastMessageFor_append_dominant (msgs : List StoredMsg) (s r : String)
    (x : StoredMsg) (hxs : x.senderId = s) (hxr : x.recipientId = r)
    (hdom : ∀ m ∈ msgs, m.senderId = s → m.recipientId = r →
      m.sequenceNumber < x.sequenceNumber) :
    lastMessageFor (msgs ++ [x]) s r = some x := by
  unfold lastMessageFor
  rw [List.foldl_append]
  show lmfStep s r (msgs.foldl (lmfStep s r) none) x = some x
  cases hfold : msgs.foldl (lmfStep s r) none with
  | none => simp [lmfStep, hxs, hxr]
  | some best =>
    have hb := lastMessageFor_mem msgs s r best hfold
    have hlt : best.sequenceNumber < x.sequenceNumber :=
      hdom best hb.1 hb.2.1 hb.2.2
    simp [lmfStep, hxs, hxr, hlt]

/-- Inversion of a successful `admitCheck`: the sequence number and
timestamp are present with the returned values, the window held, no stored
pair message carries the request's nonce, and the request's sequence number
strictly dominates every stored pair message's. -/
theorem admitCheck_ok_inv (msgs : List StoredMsg) (now : Int) (r : MsgRequest)
    (a b : Int) (h : admitCheck msgs now r = .ok (a, b)) :
    r.sequenceNumber = some a ∧ r.timestamp = some b ∧
      (now - b).natAbs ≤ 5 * 60 * 1000 ∧
      (∀ m ∈ msgs, ¬(m.nonce = r.nonce ∧ m.senderId = r.senderId ∧
        m.recipientId = r.recipientId)) ∧
      (∀ m ∈ msgs, m.senderId = r.senderId → m.recipientId = r.recipientId →
        m.sequenceNumber < a) := by
  unfold admitCheck at h
  split at h
  · simp at h
  · split at h
    · simp at h
    · simp at h
    · rename_i seq ts hseq hts
      split at h
      · simp at h
      · split at h
        · simp at h
        · rename_i hwin hnon
          cases hlast : lastMessageFor msgs r.senderId r.recipientId with
          | some last =>
            rw [hlast] at h
            split at h
            · rename_i last2 heq2
              have hl2 : last2 = last := (Option.some.inj heq2).symm
              rw [hl2] at h
              split at h
              · simp at h
              · split at h
                · simp at h
                · rename_i hseqgt htsgt
                  simp only [Except.ok.injEq, Prod.mk.injEq] at h
                  obtain ⟨ha, hb⟩ := h
                  subst ha; subst hb
                  refine ⟨hseq, hts, by omega, ?_, ?_⟩
                  · intro m hm hc
                    exact hnon (List.any_eq_true.mpr ⟨m, hm, by
                      simp [hc.1, hc.2.1, hc.2.2]⟩)
                  · intro m hm hs hr
                    obtain ⟨best, hbest, hle⟩ := lastMessageFor_max msgs _ _ m hm hs hr
                    rw [hbest] at hlast
                    have hbl : best = last := Option.some.inj hlast
                    subst hbl
                    omega
            · rename_i heq2
              exact absurd heq2 (by simp)
          | none =>
            rw [hlast] at h
            split at h
            · rename_i heq2
              exact absurd heq2 (by simp)
            · simp only [Except.ok.injEq, Prod.mk.injEq] at h
              obtain ⟨ha, hb⟩ := h
              subst ha; subst hb
              refine ⟨hseq, hts, by omega, ?_, ?_⟩
              · intro m hm hc
                exact hnon (List.any_eq_true.mpr ⟨m, hm, by
                  simp [hc.1, hc.2.1, hc.2.2]⟩)
              · intro m hm hs hr
                obtain ⟨best, hbest, _⟩ := lastMessageFor_max msgs _ _ m hm hs hr
                rw [hbest] at hlast
                exact absurd hlast (by simp)

/-! ### Claim theorems: Replay & Ordering Guard -/

/-- C6 (counterexample): the guard's nonce check is scoped to the ordered
(sender, recipient) pair, not global.  After the guard admits an envelope
with nonce `n1` from `a1` to `b1`, a second envelope carrying the same
nonce `n1` from `a1` to `c1` is admitted as well, not rejected — refuting
the claim that every subsequent admit of an admitted nonce, from any sender
to any recipient, is rejected. -/
theorem C6_counterexample :
    (messagesPost [] 1000
        { senderId := "a1", recipientId := "b1", ciphertext := "ct", iv := "iv",
          authTag := "tg", nonce := "n1", sequenceNumber := some 1,
          timestamp := some 1000 }).1 =
      .ok { senderId := "a1", recipientId := "b1", ciphertext := "ct", iv := "iv",
            authTag := "tg", nonce := "n1", sequenceNumber := 1, timestamp := 1000 } ∧
    (messagesPost
        (messagesPost [] 1000
          { senderId := "a1", recipientId := "b1", ciphertext := "ct", iv := "iv",
            authTag := "tg", nonce := "n1", sequenceNumber := some 1,
            timestamp := some 1000 }).2 1001
        { senderId := "a1", recipientId := "c1", ciphertext := "ct", iv := "iv",
          authTag := "tg", nonce := "n1", sequenceNumber := some 1,
          timestamp := some 1001 }).1 =
      .ok { senderId := "a1", recipientId := "c1", ciphertext := "ct", iv := "iv",
            authTag := "tg", nonce := "n1", sequenceNumber := 1, timestamp := 1001 } := by
  decide

/-- C6 (amended): per ordered pair, an admitted nonce is never accepted
again — once the stored messages contain an envelope with the request's
nonce for the same (sender, recipient) pair, any further admit of that
nonce for that pair (with fields present and an in-window timestamp) is
rejected with the replay error and leaves the store unchanged. -/
theorem C6_nonce_replay_per_pair (msgs : List StoredMsg) (now : Int) (r : MsgRequest)
    (m : StoredMsg) (hm : m ∈ msgs) (hnonce : m.nonce = r.nonce)
    (hs : m.senderId = r.senderId) (hr : m.recipientId = r.recipientId)
    (hfields : ¬(r.senderId = "" ∨ r.recipientId = "" ∨ r.ciphertext = "" ∨ r.iv = "" ∨
      r.authTag = "" ∨ r.nonce = "" ∨ r.timestamp = none))
    (seq ts : Int) (hseq : r.sequenceNumber = some seq) (hts : r.timestamp = some ts)
    (hwin : (now - ts).natAbs ≤ 5 * 60 * 1000) :
    messagesPost msgs now r = (.error .replayNonce, msgs) := by
  have hany : (msgs.any fun m2 => m2.nonce = r.nonce ∧ m2.senderId = r.senderId ∧
      m2.recipientId = r.recipientId) = true :=
    List.any_eq_true.mpr ⟨m, hm, by simp [hnonce, hs, hr]⟩
  unfold messagesPost admitCheck
  rw [if_neg hfields, hseq, hts]
  simp only [hany]
  rw [if_neg (by omega : ¬(now - ts).natAbs > 5 * 60 * 1000)]
  simp

/-- C6 (witness for the amended theorem). -/
theorem C6_nonce_replay_per_pair_witness :
    messagesPost
        [{ senderId := "a1", recipientId := "b1", ciphertext := "ct", iv := "iv",
           authTag := "tg", nonce := "n1", sequenceNumber := 1, timestamp := 1000 }] 1001
        { senderId := "a1", recipientId := "b1", ciphertext := "c2", iv := "i2",
          authTag := "t2", nonce := "n1", sequenceNumber := some 2,
          timestamp := some 1001 } =
      (.error .replayNonce,
       [{ senderId := "a1", recipientId := "b1", ciphertext := "ct", iv := "iv",
          authTag := "tg", nonce := "n1", sequenceNumber := 1, timestamp := 1000 }]) :=
  C6_nonce_replay_per_pair _ _ _
    { senderId := "a1", recipientId := "b1", ciphertext := "ct", iv := "iv",
      authTag := "tg", nonce := "n1", sequenceNumber := 1, timestamp := 1000 }
    (by decide) (by decide) (by decide) (by decide) (by decide) 2 1001
    (by decide) (by decide) (by decide)

/-- C7: per ordered pair, after the guard accepts an envelope with sequence
number 5, a later envelope for the same pair with a fresh nonce and an
in-window, strictly later timestamp is rejected at sequence number 5
(duplicate) and 4 (regression) with the non-monotonic-sequence error, and
accepted at sequence number 6. -/
theorem C7_sequence_monotonic (msgs st5 : List StoredMsg) (now5 nowN ts5 tsN : Int)
    (r5 rN : MsgRequest) (m5 : StoredMsg)
    (hacc : messagesPost msgs now5 r5 = (.ok m5, st5))
    (hseq5 : r5.sequenceNumber = some 5) (hts5 : r5.timestamp = some ts5)
    (hsender : rN.senderId = r5.senderId) (hrecip : rN.recipientId = r5.recipientId)
    (hfields : ¬(rN.senderId = "" ∨ rN.recipientId = "" ∨ rN.ciphertext = "" ∨
      rN.iv = "" ∨ rN.authTag = "" ∨ rN.nonce = "" ∨ rN.timestamp = none))
    (htsN : rN.timestamp = some tsN)
    (hwin : (nowN - tsN).natAbs ≤ 5 * 60 * 1000)
    (hfresh : ∀ m ∈ st5, ¬(m.nonce = rN.nonce ∧ m.senderId = rN.senderId ∧
      m.recipientId = rN.recipientId))
    (hlater : ts5 < tsN) :
    (rN.sequenceNumber = some 5 →
      messagesPost st5 nowN rN = (.error .nonMonotonicSequence, st5)) ∧
    (rN.sequenceNumber = some 4 →
      messagesPost st5 nowN rN = (.error .nonMonotonicSequence, st5)) ∧
    (rN.sequenceNumber = some 6 →
      messagesPost st5 nowN rN =
        (.ok (mkStoredMsg rN 6 tsN), st5 ++ [mkStoredMsg rN 6 tsN])) := by
  -- invert the accepted first admit
  unfold messagesPost at hacc
  rcases hchk : admitCheck msgs now5 r5 with rej | ⟨a, b⟩
  · rw [hchk] at hacc; simp at hacc
  rw [hchk] at hacc
  simp only [Except.ok.injEq, Prod.mk.injEq] at hacc
  obtain ⟨hm5, hst5⟩ := hacc
  obtain ⟨hseqa, htsb, _, _, hdom⟩ := admitCheck_ok_inv msgs now5 r5 a b hchk
  rw [hseq5] at hseqa
  rw [hts5] at htsb
  have ha5 : a = 5 := by injection hseqa.symm
  have hbts : b = ts5 := by injection htsb.symm
  subst ha5
  rw [hbts] at hm5 hst5
  subst hm5
  -- the last message of the pair in the new store is the accepted envelope
  have hlast : lastMessageFor st5 rN.senderId rN.recipientId =
      some (mkStoredMsg r5 5 ts5) := by
    rw [← hst5, hsender, hrecip]
    exact lastMessageFor_append_dominant msgs r5.senderId r5.recipientId
      (mkStoredMsg r5 5 ts5) rfl rfl
      (by
        intro m hm hs hr
        have := hdom m hm hs hr
        simpa [mkStoredMsg] using this)
  have hanyF : (st5.any fun m2 => m2.nonce = rN.nonce ∧ m2.senderId = rN.senderId ∧
      m2.recipientId = rN.recipientId) = false := by
    rw [List.any_eq_false]
    intro m2 hm2
    simpa using hfresh m2 hm2
  refine ⟨?_, ?_, ?_⟩
  · intro hseqN
    unfold messagesPost admitCheck
    rw [if_neg hfields, hseqN, htsN]
    simp only [hanyF, hlast]
    rw [if_neg (by omega : ¬(nowN - tsN).natAbs > 5 * 60 * 1000)]
    simp [mkStoredMsg]
  · intro hseqN
    unfold messagesPost admitCheck
    rw [if_neg hfields, hseqN, htsN]
    simp only [hanyF, hlast]
    rw [if_neg (by omega : ¬(nowN - tsN).natAbs > 5 * 60 * 1000)]
    simp [mkStoredMsg]
  · intro hseqN
    unfold messagesPost admitCheck
    rw [if_neg hfields, hseqN, htsN]
    simp only [hanyF, hlast]
    rw [if_neg (by omega : ¬(nowN - tsN).natAbs > 5 * 60 * 1000)]
    have h1 : ¬((6 : Int) ≤ (mkStoredMsg r5 5 ts5).sequenceNumber) := by
      simp [mkStoredMsg]
    have h2 : ¬(tsN ≤ (mkStoredMsg r5 5 ts5).timestamp) := by
      simp [mkStoredMsg]; omega
    simp [h1, h2]

/-- C7 (witness). -/
theorem C7_sequence_monotonic_witness :
    messagesPost
        [{ senderId := "a1", recipientId := "b1", ciphertext := "ct", iv := "iv",
           authTag := "tg", nonce := "n1", sequenceNumber := 5, timestamp := 1000 }] 1002
        { senderId := "a1", recipientId := "b1", ciphertext := "c2", iv := "i2",
          authTag := "t2", nonce := "n3", sequenceNumber := some 5,
          timestamp := some 1002 } =
      (.error .nonMonotonicSequence,
       [{ senderId := "a1", recipientId := "b1", ciphertext := "ct", iv := "iv",
          authTag := "tg", nonce := "n1", sequenceNumber := 5, timestamp := 1000 }]) ∧
    messagesPost
        [{ senderId := "a1", recipientId := "b1", ciphertext := "ct", iv := "iv",
           authTag := "tg", nonce := "n1", sequenceNumber := 5, timestamp := 1000 }] 1002
        { senderId := "a1", recipientId := "b1", ciphertext := "c2", iv := "i2",
          authTag := "t2", nonce := "n3", sequenceNumber := some 6,
          timestamp := some 1002 } =
      (.ok { senderId := "a1", recipientId := "b1", ciphertext := "c2", iv := "i2",
             authTag := "t2", nonce := "n3", sequenceNumber := 6, timestamp := 1002 },
       [{ senderId := "a1", recipientId := "b1", ciphertext := "ct", iv := "iv",
          authTag := "tg", nonce := "n1", sequenceNumber := 5, timestamp := 1000 },
        { senderId := "a1", recipientId := "b1", ciphertext := "c2", iv := "i2",
          authTag := "t2", nonce := "n3", sequenceNumber := 6, timestamp := 1002 }]) :=
  ⟨(C7_sequence_monotonic []
      [{ senderId := "a1", recipientId := "b1", ciphertext := "ct", iv := "iv",
         authTag := "tg", nonce := "n1", sequenceNumber := 5, timestamp := 1000 }]
      1000 1002 1000 1002
      { senderId := "a1", recipientId := "b1", ciphertext := "ct", iv := "iv",
        authTag := "tg", nonce := "n1", sequenceNumber := some 5, timestamp := some 1000 }
      { senderId := "a1", recipientId := "b1", ciphertext := "c2", iv := "i2",
        authTag := "t2", nonce := "n3", sequenceNumber := some 5, timestamp := some 1002 }
      { senderId := "a1", recipientId := "b1", ciphertext := "ct", iv := "iv",
        authTag := "tg", nonce := "n1", sequenceNumber := 5, timestamp := 1000 }
      (by decide) rfl rfl rfl rfl (by decide) rfl (by decide) (by decide)
      (by decide)).1 rfl,
   (C7_sequence_monotonic []
      [{ senderId := "a1", recipientId := "b1", ciphertext := "ct", iv := "iv",
         authTag := "tg", nonce := "n1", sequenceNumber := 5, timestamp := 1000 }]
      1000 1002 1000 1002
      { senderId := "a1", recipientId := "b1", ciphertext := "ct", iv := "iv",
        authTag := "tg", nonce := "n1", sequenceNumber := some 5, timestamp := some 1000 }
      { senderId := "a1", recipientId := "b1", ciphertext := "c2", iv := "i2",
        authTag := "t2", nonce := "n3", sequenceNumber := some 6, timestamp := some 1002 }
      { senderId := "a1", recipientId := "b1", ciphertext := "ct", iv := "iv",
        authTag := "tg", nonce := "n1", sequenceNumber := 5, timestamp := 1000 }
      (by decide) rfl rfl rfl rfl (by decide) rfl (by decide) (by decide)
      (by decide)).2.2 rfl⟩

/-- C8: evaluated at the failing input: the handler is a separate check
followed by a separate insert, so interleaving two admits of the same
envelope (check, check, insert, insert) accepts both and stores the nonce
twice, while the same two admits run sequentially reject the second. -/
theorem C8_race_double_accept :
    (runSchedule [false, true, false, true]
        ([],
         { req := { senderId := "a1", recipientId := "b1", ciphertext := "ct", iv := "iv",
                    authTag := "tg", nonce := "n1", sequenceNumber := some 1,
                    timestamp := some 1000 },
           now := 1000, pc := 0, accepted := none },
         { req := { senderId := "a1", recipientId := "b1", ciphertext := "ct", iv := "iv",
                    authTag := "tg", nonce := "n1", sequenceNumber := some 1,
                    timestamp := some 1000 },
           now := 1000, pc := 0, accepted := none })).2.1.accepted = some true ∧
    (runSchedule [false, true, false, true]
        ([],
         { req := { senderId := "a1", recipientId := "b1", ciphertext := "ct", iv := "iv",
                    authTag := "tg", nonce := "n1", sequenceNumber := some 1,
                    timestamp := some 1000 },
           now := 1000, pc := 0, accepted := none },
         { req := { senderId := "a1", recipientId := "b1", ciphertext := "ct", iv := "iv",
                    authTag := "tg", nonce := "n1", sequenceNumber := some 1,
                    timestamp := some 1000 },
           now := 1000, pc := 0, accepted := none })).2.2.accepted = some true ∧
    ((runSchedule [false, true, false, true]
        ([],
         { req := { senderId := "a1", recipientId := "b1", ciphertext := "ct", iv := "iv",
                    authTag := "tg", nonce := "n1", sequenceNumber := some 1,
                    timestamp := some 1000 },
           now := 1000, pc := 0, accepted := none },
         { req := { senderId := "a1", recipientId := "b1", ciphertext := "ct", iv := "iv",
                    authTag := "tg", nonce := "n1", sequenceNumber := some 1,
                    timestamp := some 1000 },
           now := 1000, pc := 0, accepted := none })).1.filter
        (fun m => m.nonce = "n1")).length = 2 ∧
    (messagesPost
        (messagesPost [] 1000
          { senderId := "a1", recipientId := "b1", ciphertext := "ct", iv := "iv",
            authTag := "tg", nonce := "n1", sequenceNumber := some 1,
            timestamp := some 1000 }).2 1000
        { senderId := "a1", recipientId := "b1", ciphertext := "ct", iv := "iv",
          authTag := "tg", nonce := "n1", sequenceNumber := some 1,
          timestamp := some 1000 }).1 = .error .replayNonce := by
  decide

/-- C10: the Next.js messages route with all required fields present
rejects a request exactly when its nonce is already marked used, performs
no sequence or timestamp comparison against stored messages (the outcome is
invariant under the stored-message list), and stores a missing or zero
sequence number as 0. -/
theorem C10_route_nonce_only (st : NextState) (now : Int) (r : NextMsgRequest)
    (hf : ¬(r.senderId = "" ∨ r.recipientId = "" ∨ r.ciphertext = "" ∨ r.iv = "" ∨
      r.authTag = "" ∨ r.nonce = "")) :
    ((nextMessagesPost st now r).1 = .error .replayNonce ↔
      isNonceUsed st r.nonce = true) ∧
    (∀ msgs2 : List NextStoredMsg,
      (nextMessagesPost { st with messages := msgs2 } now r).1 =
        (nextMessagesPost st now r).1) ∧
    ((r.sequenceNumber = none ∨ r.sequenceNumber = some 0) →
      isNonceUsed st r.nonce = false →
      nextMessagesPost st now r =
        (.ok { senderId := r.senderId, recipientId := r.recipientId,
               ciphertext := r.ciphertext, iv := r.iv, authTag := r.authTag,
               nonce := r.nonce, timestamp := now, sequenceNumber := 0 },
         { messages := st.messages ++
             [{ senderId := r.senderId, recipientId := r.recipientId,
                ciphertext := r.ciphertext, iv := r.iv, authTag := r.authTag,
                nonce := r.nonce, timestamp := now, sequenceNumber := 0 }],
           usedNonces := st.usedNonces ++ [r.nonce] })) := by
  refine ⟨?_, ?_, ?_⟩
  · unfold nextMessagesPost
    rw [if_neg hf]
    cases hn : isNonceUsed st r.nonce with
    | true => simp [hn]
    | false => simp [hn]
  · intro msgs2
    unfold nextMessagesPost
    rw [if_neg hf, if_neg hf]
    have hsame : isNonceUsed { st with messages := msgs2 } r.nonce =
        isNonceUsed st r.nonce := rfl
    rw [hsame]
    cases hn : isNonceUsed st r.nonce with
    | true => simp
    | false => simp
  · intro hseq hn
    unfold nextMessagesPost
    rw [if_neg hf]
    have hz : jsOrZero r.sequenceNumber = 0 := by
      rcases hseq with hseq | hseq <;> simp [jsOrZero, hseq]
    simp [hn, hz, markNonceUsed]

/-- C10 (witness). -/
theorem C10_route_nonce_only_witness :
    (((nextMessagesPost { messages := [], usedNonces := ["nX"] } 5
        { senderId := "a1", recipientId := "b1", ciphertext := "ct", iv := "iv",
          authTag := "tg", nonce := "nX", sequenceNumber := none }).1 =
      .error .replayNonce ↔
      isNonceUsed { messages := [], usedNonces := ["nX"] } "nX" = true)) ∧
    (nextMessagesPost
        { messages :=
            [{ senderId := "z", recipientId := "z", ciphertext := "z", iv := "z",
               authTag := "z", nonce := "z", timestamp := 9, sequenceNumber := 9 }],
          usedNonces := ["nX"] } 5
        { senderId := "a1", recipientId := "b1", ciphertext := "ct", iv := "iv",
          authTag := "tg", nonce := "nX", sequenceNumber := none }).1 =
      (nextMessagesPost { messages := [], usedNonces := ["nX"] } 5
        { senderId := "a1", recipientId := "b1", ciphertext := "ct", iv := "iv",
          authTag := "tg", nonce := "nX", sequenceNumber := none }).1 ∧
    nextMessagesPost { messages := [], usedNonces := [] } 5
        { senderId := "a1", recipientId := "b1", ciphertext := "ct", iv := "iv",
          authTag := "tg", nonce := "nY", sequenceNumber := none } =
      (.ok { senderId := "a1", recipientId := "b1", ciphertext := "ct", iv := "iv",
             authTag := "tg", nonce := "nY", timestamp := 5, sequenceNumber := 0 },
       { messages :=
           [{ senderId := "a1", recipientId := "b1", ciphertext := "ct", iv := "iv",
              authTag := "tg", nonce := "nY", timestamp := 5, sequenceNumber := 0 }],
         usedNonces := ["nY"] }) := by
  refine ⟨?_, ?_, ?_⟩
  · exact (C10_route_nonce_only _ 5 _ (by decide)).1
  · exact (C10_route_nonce_only { messages := [], usedNonces := ["nX"] } 5 _ (by decide)).2.1
      [{ senderId := "z", recipientId := "z", ciphertext := "z", iv := "z",
         authTag := "z", nonce := "z", timestamp := 9, sequenceNumber := 9 }]
  · have h := (C10_route_nonce_only { messages := [], usedNonces := [] } 5
      { senderId := "a1", recipientId := "b1", ciphertext := "ct", iv := "iv",
        authTag := "tg", nonce := "nY", sequenceNumber := none }
      (by decide)).2.2 (Or.inl rfl) (by decide)
    simpa using h

/-- C3: evaluated at the failing input: the server's session-key endpoint
stores the client-supplied raw exported session key in its state, the GET
endpoint returns it, and the client's `storeSessionKeyForUser` installs a
server-supplied key and marks the session confirmed without any
confirmation round. -/
theorem C3_raw_key_custody :
    (sessionKeyPost [] 1000 "a1" "b1" "RAWKEY").1 = true ∧
    (sessionKeyPost [] 1000 "a1" "b1" "RAWKEY").2 =
      [{ sessionId := "a1:b1", exportedKey := "RAWKEY", createdAt := 1000 }] ∧
    sessionKeyGet (sessionKeyPost [] 1000 "a1" "b1" "RAWKEY").2 "b1" "a1" =
      some "RAWKEY" ∧
    alistGet (storeSessionKeyForUser
        { identityKeyPair := none, sessionKeys := [], currentUserId := some (jstr "b1"),
          confirmedSessions := [], indexedDB := [] }
        (jstr "a1") (exportSessionKey [1, 2, 3])).sessionKeys (jstr "a1") =
      some [1, 2, 3] ∧
    isSessionConfirmed (storeSessionKeyForUser
        { identityKeyPair := none, sessionKeys := [], currentUserId := some (jstr "b1"),
          confirmedSessions := [], indexedDB := [] }
        (jstr "a1") (exportSessionKey [1, 2, 3])) (jstr "a1") = true := by
  decide

/-! ### Further facts about the client functions -/

theorem alistGet_put {α : Type} (l : List (JSStr × α)) (k : JSStr) (v : α) :
    alistGet (alistPut l k v) k = some v := by
  induction l with
  | nil => simp [alistPut, alistGet]
  | cons p t ih =>
    obtain ⟨k2, w⟩ := p
    by_cases hk : k2 = k
    · simp [alistPut, alistGet, hk]
    · simp [alistPut, alistGet, hk, ih]

/-- Model of `verifyKeyConfirmation` succeeds exactly on the recomputed base64 HMAC. -/
theorem verifyKeyConfirmation_eq_iff (p : CryptoPrims) (k : Bytes)
    (s r n cn recv : JSStr) :
    verifyKeyConfirmation p k s r n cn recv = true ↔
      recv = arrayBufferToBase64 (p.hmacSHA256 k
        (textEncoderEncode (confirmationData s r n cn))) := by
  unfold verifyKeyConfirmation
  set e := arrayBufferToBase64 (p.hmacSHA256 k
    (textEncoderEncode (confirmationData s r n cn))) with he
  by_cases hlen : e.length ≠ recv.length
  · rw [if_pos hlen]
    simp only [Bool.false_eq_true, false_iff]
    intro h
    exact hlen (by rw [h])
  · rw [if_neg hlen]
    push_neg at hlen
    rw [decide_eq_true_iff, ctCompareLoop_eq_zero_iff e recv hlen]
    exact eq_comm

/-! ### Claim theorems: confirmation HMAC (C9) -/

/-- C9: `generateKeyConfirmation` returns the HMAC-SHA256, keyed by the raw
session-key bytes, of `KEY_CONFIRM:senderId:recipientId:originalNonce:
confirmationNonce` (base64-encoded), together with the confirmation nonce;
and `verifyKeyConfirmation` returns `true` exactly when the received hash
equals this recomputed value, comparing via the constant-time loop and
returning a boolean (never throwing) on mismatch. -/
theorem C9_key_confirmation (p : CryptoPrims) (sessionKey : Bytes)
    (senderId recipientId originalNonce confNonce receivedHash : JSStr) :
    (generateKeyConfirmation p sessionKey senderId recipientId originalNonce
        confNonce).confirmationHash =
      arrayBufferToBase64 (p.hmacSHA256 sessionKey (textEncoderEncode
        (jstr "KEY_CONFIRM:" ++ senderId ++ jstr ":" ++ recipientId ++ jstr ":" ++
          originalNonce ++ jstr ":" ++ confNonce))) ∧
    (generateKeyConfirmation p sessionKey senderId recipientId originalNonce
        confNonce).confirmationNonce = confNonce ∧
    (verifyKeyConfirmation p sessionKey senderId recipientId originalNonce confNonce
        receivedHash = true ↔
      receivedHash = arrayBufferToBase64 (p.hmacSHA256 sessionKey (textEncoderEncode
        (jstr "KEY_CONFIRM:" ++ senderId ++ jstr ":" ++ recipientId ++ jstr ":" ++
          originalNonce ++ jstr ":" ++ confNonce)))) :=
  ⟨rfl, rfl,
    verifyKeyConfirmation_eq_iff p sessionKey senderId recipientId originalNonce
      confNonce receivedHash⟩

/-! ### Claim theorems: authenticated encryption (C2) -/

/-- C2: for a session key, decrypting the encryption of any well-formed
plaintext returns the plaintext; and a single-bit flip of the transmitted
ciphertext or IV makes decryption fail with the authentication error
whenever the GCM tag of the flipped input differs from the original tag (as
it does for AES-GCM except with negligible probability), while a single-bit
flip of the tag itself makes decryption fail unconditionally. -/
theorem C2_roundtrip_and_tamper (p : CryptoPrims) (key iv : Bytes) (pt : JSStr)
    (hiv : ∀ b ∈ iv, b < 256) (hpt : ∀ c ∈ pt, ScalarCP c) :
    decryptMessage p key (encryptMessage p key iv pt).ciphertext
        (encryptMessage p key iv pt).iv (encryptMessage p key iv pt).authTag =
      .ok pt ∧
    (∀ i k, i < (ctrXor (p.ks key iv) 0 (textEncoderEncode pt)).length → k < 8 →
      p.gtag key iv (flipBit (ctrXor (p.ks key iv) 0 (textEncoderEncode pt)) i k) ≠
        p.gtag key iv (ctrXor (p.ks key iv) 0 (textEncoderEncode pt)) →
      decryptMessage p key
          (arrayBufferToBase64 (flipBit (ctrXor (p.ks key iv) 0 (textEncoderEncode pt)) i k))
          (encryptMessage p key iv pt).iv (encryptMessage p key iv pt).authTag =
        .error .authenticationFailed) ∧
    (∀ i k, i < iv.length → k < 8 →
      p.gtag key (flipBit iv i k) (ctrXor (p.ks key iv) 0 (textEncoderEncode pt)) ≠
        p.gtag key iv (ctrXor (p.ks key iv) 0 (textEncoderEncode pt)) →
      decryptMessage p key (encryptMessage p key iv pt).ciphertext
          (arrayBufferToBase64 (flipBit iv i k)) (encryptMessage p key iv pt).authTag =
        .error .authenticationFailed) ∧
    (∀ i k, i < 16 → k < 8 →
      decryptMessage p key (encryptMessage p key iv pt).ciphertext
          (encryptMessage p key iv pt).iv
          (arrayBufferToBase64
            (flipBit (p.gtag key iv (ctrXor (p.ks key iv) 0 (textEncoderEncode pt))) i k)) =
        .error .authenticationFailed) := by
  have hptb : ∀ b ∈ textEncoderEncode pt, b < 256 := textEncoderEncode_lt pt hpt
  have hct : ∀ b ∈ ctrXor (p.ks key iv) 0 (textEncoderEncode pt), b < 256 :=
    ctrXor_lt _ (fun i => p.ks_lt key iv i) 0 _ hptb
  refine ⟨decryptMessage_encryptMessage p key iv pt hiv hpt, ?_, ?_, ?_⟩
  · intro i k hi hk hne
    rw [encryptMessage_iv, encryptMessage_authTag]
    rw [decryptMessage_of_bytes p key _ _ iv (flipBit_lt _ i k hct hk)
      (p.gtag_lt _ _ _) hiv (p.gtag_length _ _ _)]
    rw [if_neg (fun hh => hne hh.symm)]
  · intro i k hi hk hne
    rw [encryptMessage_ciphertext, encryptMessage_authTag]
    rw [decryptMessage_of_bytes p key _ _ (flipBit iv i k) hct
      (p.gtag_lt _ _ _) (flipBit_lt _ i k hiv hk) (p.gtag_length _ _ _)]
    rw [if_neg (fun hh => hne hh.symm)]
  · intro i k hi hk
    rw [encryptMessage_ciphertext, encryptMessage_iv]
    have htlen : (p.gtag key iv (ctrXor (p.ks key iv) 0 (textEncoderEncode pt))).length = 16 :=
      p.gtag_length _ _ _
    rw [decryptMessage_of_bytes p key _ _ iv hct
      (flipBit_lt _ i k (p.gtag_lt _ _ _) hk) hiv
      (by rw [flipBit_length, htlen])]
    rw [if_neg (flipBit_ne _ i k (by rw [htlen]; exact hi))]

/-! ### Concrete primitive instantiation used by witnesses -/

/-- A small computable instantiation of `CryptoPrims` for evaluating the
theorems at concrete inputs: deterministic cons-signatures, multiplicative
Diffie-Hellman, sum-based keystream and tag. -/
def testPrims : CryptoPrims where
  sign := fun sk d => sk :: d
  pubOfSigner := fun sk => [sk]
  verify := fun pub sig d => sig == pub.headD 0 :: d
  verify_iff := by intro sk sig d; simp
  dhPub := fun a => [a]
  dhShared := fun a pb => [a * pb.headD 0]
  dh_comm := by intro a b; simp [Nat.mul_comm]
  hkdf := fun ikm salt info => ikm ++ salt ++ info
  hmacSHA256 := fun key data => [(key.sum * 3 + data.sum * 5 + data.length) % 256]
  ks := fun key iv i => (key.sum + iv.sum + i) % 256
  ks_lt := by intro key iv i; exact Nat.mod_lt _ (by omega)
  gtag := fun key iv ct =>
    List.replicate 15 0 ++ [(key.sum + iv.sum * 3 + ct.sum * 7 + ct.length) % 256]
  gtag_length := by intro k iv c; simp
  gtag_lt := by
    intro k iv c b hb
    simp only [List.mem_append, List.mem_replicate, List.mem_singleton] at hb
    rcases hb with hb | hb
    · omega
    · subst hb
      exact Nat.mod_lt _ (by omega)

def wKey : Bytes := [1, 2]

def wIv : Bytes := [9, 8, 7, 6, 5, 4, 3, 2, 1, 0, 1, 2]

def wCt : Bytes := ctrXor (testPrims.ks wKey wIv) 0 (textEncoderEncode (jstr "hi"))

def wTag : Bytes := testPrims.gtag wKey wIv wCt

/-- C2 (witness). -/
theorem C2_roundtrip_and_tamper_witness :
    decryptMessage testPrims wKey (encryptMessage testPrims wKey wIv (jstr "hi")).ciphertext
        (encryptMessage testPrims wKey wIv (jstr "hi")).iv
        (encryptMessage testPrims wKey wIv (jstr "hi")).authTag = .ok (jstr "hi") ∧
    decryptMessage testPrims wKey (arrayBufferToBase64 (flipBit wCt 0 0))
        (encryptMessage testPrims wKey wIv (jstr "hi")).iv
        (encryptMessage testPrims wKey wIv (jstr "hi")).authTag =
      .error .authenticationFailed ∧
    decryptMessage testPrims wKey (encryptMessage testPrims wKey wIv (jstr "hi")).ciphertext
        (arrayBufferToBase64 (flipBit wIv 0 0))
        (encryptMessage testPrims wKey wIv (jstr "hi")).authTag =
      .error .authenticationFailed ∧
    decryptMessage testPrims wKey (encryptMessage testPrims wKey wIv (jstr "hi")).ciphertext
        (encryptMessage testPrims wKey wIv (jstr "hi")).iv
        (arrayBufferToBase64 (flipBit wTag 0 0)) =
      .error .authenticationFailed := by
  have h := C2_roundtrip_and_tamper testPrims wKey wIv (jstr "hi")
    (by decide) (by decide)
  exact ⟨h.1, h.2.1 0 0 (by decide) (by decide) (by decide),
    h.2.2.1 0 0 (by decide) (by decide) (by decide),
    h.2.2.2 0 0 (by decide) (by decide)⟩

/-! ### Claim theorems: session-key use without confirmation (C5) -/

theorem loadSessionKey_fst_confirm (st : CryptoState) (c : List JSStr) (rid : JSStr) :
    (loadSessionKey { st with confirmedSessions := c } rid).1 =
      (loadSessionKey st rid).1 := by
  rcases st with ⟨id, sk, uid, conf, db⟩
  unfold loadSessionKey
  simp only []
  cases h1 : alistGet sk rid with
  | some k => simp [h1]
  | none =>
    cases uid with
    | none => simp [h1]
    | some u =>
      cases h2 : dbGet db (jstr "session-" ++ getSessionId u rid) with
      | none => simp [h1, h2]
      | some stored =>
        cases h3 : importSessionKey stored.privateKey with
        | none => simp [h1, h2, h3]
        | some k => simp [h1, h2, h3]

/-- C5 (amended): `encrypt` and `decrypt` consult only the session-key
stores, never the confirmation set: their outcome is invariant under
arbitrary replacement of `confirmedSessions`, and `encrypt` fails with the
no-session-key error exactly when no session key is loadable — so a derived
but unconfirmed candidate session key is usable for traffic. -/
theorem C5_encrypt_ignores_confirmation (p : CryptoPrims) (st : CryptoState)
    (c : List JSStr) (ivBytes : Bytes)
    (msgNonce recipientId plaintext senderId ct ivs tag : JSStr) :
    (encrypt p { st with confirmedSessions := c } ivBytes msgNonce recipientId
        plaintext).1 =
      (encrypt p st ivBytes msgNonce recipientId plaintext).1 ∧
    ((encrypt p st ivBytes msgNonce recipientId plaintext).1 =
        .error .noSessionKey ↔ (loadSessionKey st recipientId).1 = none) ∧
    (decrypt p { st with confirmedSessions := c } senderId ct ivs tag).1 =
      (decrypt p st senderId ct ivs tag).1 := by
  refine ⟨?_, ?_, ?_⟩
  · have hfst := loadSessionKey_fst_confirm st c recipientId
    unfold encrypt
    rcases h1 : loadSessionKey st recipientId with ⟨k1, s1⟩
    rcases h2 : loadSessionKey { st with confirmedSessions := c } recipientId with ⟨k2, s2⟩
    rw [h1, h2] at hfst
    simp only at hfst
    subst hfst
    cases k2 <;> simp
  · unfold encrypt
    rcases h1 : loadSessionKey st recipientId with ⟨k1, s1⟩
    cases k1 <;> simp
  · have hfst := loadSessionKey_fst_confirm st c senderId
    unfold decrypt
    rcases h1 : loadSessionKey st senderId with ⟨k1, s1⟩
    rcases h2 : loadSessionKey { st with confirmedSessions := c } senderId with ⟨k2, s2⟩
    rw [h1, h2] at hfst
    simp only at hfst
    subst hfst
    cases k2 with
    | none => simp
    | some key => cases hd : decryptMessage p key ct ivs tag <;> simp [hd]

/-! Witness fixtures for the handshake claims. -/

def wStA : CryptoState :=
  { identityKeyPair := some 7, sessionKeys := [], currentUserId := some (jstr "a1"),
    confirmedSessions := [], indexedDB := [] }

def wStB : CryptoState :=
  { identityKeyPair := some 8, sessionKeys := [], currentUserId := some (jstr "b1"),
    confirmedSessions := [], indexedDB := [] }

def wInit : InitResult :=
  { ephemeralPublicKey := testPrims.dhPub 3
    signature := signData testPrims 7 (testPrims.dhPub 3 ++ jstr ":" ++ jstr "b1" ++
      jstr ":" ++ natToJStr 1000 ++ jstr ":" ++ jstr "N1")
    timestamp := 1000
    nonce := jstr "N1"
    ephemeralPrivateKey := 3 }

def wRespondRun : Except KxError RespondResult × CryptoState :=
  respondToKeyExchange testPrims wStB 1000 4 (jstr "N2") (jstr "a1")
    (testPrims.pubOfSigner 7) wInit.ephemeralPublicKey wInit.signature
    wInit.timestamp wInit.nonce

def wSessionKeyB : Bytes :=
  deriveSessionKey testPrims (deriveSharedSecret testPrims 4 wInit.ephemeralPublicKey)
    (jstr "N1" ++ jstr ":" ++ jstr "N2")
    (jstr "session:" ++ jstr "a1" ++ jstr ":" ++ jstr "b1")

/-- C5 (counterexample): after `respondToKeyExchange` the responder holds a
derived candidate session key that no confirmation round has validated
(`confirmedSessions` is empty), yet `encrypt` and `decrypt` readily use it
for traffic — refuting the claim that a key is usable only once both peers
reached the Established state. -/
theorem C5_counterexample :
    alistGet (wRespondRun).2.sessionKeys (jstr "a1") = some wSessionKeyB ∧
    (wRespondRun).2.confirmedSessions = [] ∧
    isSessionConfirmed (wRespondRun).2 (jstr "a1") = false ∧
    (encrypt testPrims (wRespondRun).2 wIv (jstr "mN") (jstr "a1") (jstr "hi")).1 =
      .ok (encryptMessage testPrims wSessionKeyB wIv (jstr "hi"), jstr "mN") ∧
    (decrypt testPrims (wRespondRun).2 (jstr "a1")
        (encryptMessage testPrims wSessionKeyB wIv (jstr "hi")).ciphertext
        (encryptMessage testPrims wSessionKeyB wIv (jstr "hi")).iv
        (encryptMessage testPrims wSessionKeyB wIv (jstr "hi")).authTag).1 =
      .ok (jstr "hi") := by
  decide

/-! ### Claim theorems: tampered Init aborts with no state change (C4) -/

/-- C4: a received Init whose ephemeral public key was tampered with in
transit fails signature verification (under the deterministic-signature
model, whenever the signature of the tampered data differs from that of the
signed data, as ECDSA guarantees except with negligible probability), and
`respondToKeyExchange` then returns the invalid-signature error with the
client state unchanged: no session key is derived, stored, or added to the
session map. -/
theorem C4_tampered_init_aborts (p : CryptoPrims) (stA stB : CryptoState)
    (skA skB : Nat) (nowA nowB ephA : Nat) (nonceA bId senderId pubB : JSStr)
    (init : InitResult) (respEph : Nat) (respNonce epkT : JSStr)
    (hAid : stA.identityKeyPair = some skA)
    (hBid : stB.identityKeyPair = some skB)
    (hBuid : stB.currentUserId = some bId)
    (hinit : initiateKeyExchange p stA nowA ephA nonceA bId pubB = .ok init)
    (hwin : absDiff nowB init.timestamp ≤ 5 * 60 * 1000)
    (htamper : epkT ≠ init.ephemeralPublicKey)
    (hnocoll : p.sign skA (epkT ++ jstr ":" ++ bId ++ jstr ":" ++
        natToJStr init.timestamp ++ jstr ":" ++ init.nonce) ≠
      p.sign skA (init.ephemeralPublicKey ++ jstr ":" ++ bId ++ jstr ":" ++
        natToJStr init.timestamp ++ jstr ":" ++ init.nonce)) :
    respondToKeyExchange p stB nowB respEph respNonce senderId (p.pubOfSigner skA)
        epkT init.signature init.timestamp init.nonce =
      (.error .invalidSignature, stB) := by
  -- invert the honest initiation
  rw [initiateKeyExchange, hAid] at hinit
  simp only [Except.ok.injEq] at hinit
  subst hinit
  simp only at hwin hnocoll ⊢
  -- run the responder
  rw [respondToKeyExchange, hBid]
  simp only [hBuid]
  rw [if_neg (by omega : ¬absDiff nowB nowA > 5 * 60 * 1000)]
  have hv : verifySignature p (p.pubOfSigner skA)
      (signData p skA (p.dhPub ephA ++ jstr ":" ++ bId ++ jstr ":" ++
        natToJStr nowA ++ jstr ":" ++ nonceA))
      (epkT ++ jstr ":" ++ bId ++ jstr ":" ++ natToJStr nowA ++ jstr ":" ++ nonceA) =
      false := by
    cases hvb : verifySignature p (p.pubOfSigner skA)
        (signData p skA (p.dhPub ephA ++ jstr ":" ++ bId ++ jstr ":" ++
          natToJStr nowA ++ jstr ":" ++ nonceA))
        (epkT ++ jstr ":" ++ bId ++ jstr ":" ++ natToJStr nowA ++ jstr ":" ++ nonceA) with
    | false => rfl
    | true =>
      have h2 := (p.verify_iff skA _ _).mp hvb
      exact absurd h2.symm hnocoll
  rw [hv]
  simp

/-- C4 (witness). -/
theorem C4_tampered_init_aborts_witness :
    respondToKeyExchange testPrims wStB 1000 4 (jstr "N2") (jstr "a1")
        (testPrims.pubOfSigner 7) [9, 9] wInit.signature wInit.timestamp wInit.nonce =
      (.error .invalidSignature, wStB) :=
  C4_tampered_init_aborts testPrims wStA wStB 7 8 1000 1000 3 (jstr "N1") (jstr "b1")
    (jstr "a1") (testPrims.pubOfSigner 8) wInit 4 (jstr "N2") [9, 9]
    (by decide) (by decide) (by decide) (by decide) (by decide) (by decide) (by decide)

/-! ### Claim theorems: handshake key agreement and confirmation (C1) -/

/-- C1: in a completed handshake — A runs `initiateKeyExchange` then
`completeKeyExchange`, B runs `respondToKeyExchange`, messages delivered
unmodified — the two session keys are byte-for-byte equal; both equal
`deriveSessionKey` applied to the common ECDH shared secret with salt
`initiatorNonce:responderNonce` and info `session:initiatorId:responderId`;
and each side's verification of the other's key-confirmation message
returns true. -/
theorem C1_handshake_key_agreement (p : CryptoPrims) (stA stB stA1 stB1 : CryptoState)
    (skA skB : Nat) (aId bId : JSStr) (nowA nowB nowA2 : Nat) (ephA ephB : Nat)
    (nonceA nonceB : JSStr) (init : InitResult) (resp : RespondResult)
    (keyA : Bytes) (tA tB : Nat) (cnA cnB : JSStr)
    (hAid : stA.identityKeyPair = some skA) (hAuid : stA.currentUserId = some aId)
    (hBid : stB.identityKeyPair = some skB) (hBuid : stB.currentUserId = some bId)
    (hinit : initiateKeyExchange p stA nowA ephA nonceA bId (p.pubOfSigner skB) = .ok init)
    (hresp : respondToKeyExchange p stB nowB ephB nonceB aId (p.pubOfSigner skA)
        init.ephemeralPublicKey init.signature init.timestamp init.nonce =
      (.ok resp, stB1))
    (hcomp : completeKeyExchange p stA nowA2 bId (p.pubOfSigner skB)
        resp.responseEphemeralPublicKey resp.responseSignature resp.responseTimestamp
        resp.responseNonce init.nonce init.ephemeralPrivateKey = (.ok keyA, stA1)) :
    keyA = resp.sessionKey ∧
    keyA = deriveSessionKey p (p.dhShared ephA (p.dhPub ephB))
      (nonceA ++ jstr ":" ++ nonceB) (jstr "session:" ++ aId ++ jstr ":" ++ bId) ∧
    createKeyConfirmation p stA1 tA cnA bId init.nonce =
      .ok { confirmationHash := arrayBufferToBase64 (p.hmacSHA256 keyA
              (textEncoderEncode (confirmationData aId bId nonceA cnA)))
            confirmationNonce := cnA
            timestamp := tA } ∧
    (verifyReceivedKeyConfirmation p stB1 aId
        (arrayBufferToBase64 (p.hmacSHA256 keyA
          (textEncoderEncode (confirmationData aId bId nonceA cnA))))
        cnA nonceA).1 = .ok true ∧
    createKeyConfirmation p stB1 tB cnB aId init.nonce =
      .ok { confirmationHash := arrayBufferToBase64 (p.hmacSHA256 resp.sessionKey
              (textEncoderEncode (confirmationData bId aId nonceA cnB)))
            confirmationNonce := cnB
            timestamp := tB } ∧
    (verifyReceivedKeyConfirmation p stA1 bId
        (arrayBufferToBase64 (p.hmacSHA256 resp.sessionKey
          (textEncoderEncode (confirmationData bId aId nonceA cnB))))
        cnB nonceA).1 = .ok true := by
  -- invert the initiation
  simp only [initiateKeyExchange, hAid, Except.ok.injEq] at hinit
  subst hinit
  -- invert the response
  simp only [respondToKeyExchange, hBid, hBuid] at hresp
  split at hresp
  · simp at hresp
  · split at hresp
    · simp at hresp
    · simp only [Prod.mk.injEq, Except.ok.injEq] at hresp
      obtain ⟨hr1, hr2⟩ := hresp
      subst hr1; subst hr2
      -- invert the completion
      simp only [completeKeyExchange, hAid, hAuid] at hcomp
      split at hcomp
      · simp at hcomp
      · split at hcomp
        · simp at hcomp
        · simp only [Prod.mk.injEq, Except.ok.injEq] at hcomp
          obtain ⟨hc1, hc2⟩ := hcomp
          subst hc1; subst hc2
          -- both sides derived the same key
          have hkeys : deriveSessionKey p (deriveSharedSecret p ephA (p.dhPub ephB))
              (nonceA ++ jstr ":" ++ nonceB)
              (jstr "session:" ++ aId ++ jstr ":" ++ bId) =
            deriveSessionKey p (deriveSharedSecret p ephB (p.dhPub ephA))
              (nonceA ++ jstr ":" ++ nonceB)
              (jstr "session:" ++ aId ++ jstr ":" ++ bId) := by
            unfold deriveSessionKey deriveSharedSecret
            rw [p.dh_comm ephA ephB]
          refine ⟨hkeys, rfl, ?_, ?_, ?_, ?_⟩
          · unfold createKeyConfirmation loadSessionKeyInternal
            simp only [hAuid, alistGet_put]
            rfl
          · unfold verifyReceivedKeyConfirmation loadSessionKeyInternal
            simp only [hBuid, alistGet_put]
            have hval : verifyKeyConfirmation p
                (deriveSessionKey p (deriveSharedSecret p ephB (p.dhPub ephA))
                  (nonceA ++ jstr ":" ++ nonceB)
                  (jstr "session:" ++ aId ++ jstr ":" ++ bId))
                aId bId nonceA cnA
                (arrayBufferToBase64 (p.hmacSHA256
                  (deriveSessionKey p (deriveSharedSecret p ephA (p.dhPub ephB))
                    (nonceA ++ jstr ":" ++ nonceB)
                    (jstr "session:" ++ aId ++ jstr ":" ++ bId))
                  (textEncoderEncode (confirmationData aId bId nonceA cnA)))) = true := by
              rw [verifyKeyConfirmation_eq_iff]
              rw [hkeys]
            rw [hval]
            simp
          · unfold createKeyConfirmation loadSessionKeyInternal
            simp only [hBuid, alistGet_put]
            rfl
          · unfold verifyReceivedKeyConfirmation loadSessionKeyInternal
            simp only [hAuid, alistGet_put]
            have hval : verifyKeyConfirmation p
                (deriveSessionKey p (deriveSharedSecret p ephA (p.dhPub ephB))
                  (nonceA ++ jstr ":" ++ nonceB)
                  (jstr "session:" ++ aId ++ jstr ":" ++ bId))
                bId aId nonceA cnB
                (arrayBufferToBase64 (p.hmacSHA256
                  (deriveSessionKey p (deriveSharedSecret p ephB (p.dhPub ephA))
                    (nonceA ++ jstr ":" ++ nonceB)
                    (jstr "session:" ++ aId ++ jstr ":" ++ bId))
                  (textEncoderEncode (confirmationData bId aId nonceA cnB)))) = true := by
              rw [verifyKeyConfirmation_eq_iff]
              rw [hkeys]
            rw [hval]
            simp

def wRespResult : RespondResult :=
  { responseEphemeralPublicKey := testPrims.dhPub 4
    responseSignature := signData testPrims 8 (testPrims.dhPub 4 ++ jstr ":" ++
      jstr "a1" ++ jstr ":" ++ natToJStr 1000 ++ jstr ":" ++ jstr "N2")
    responseTimestamp := 1000
    responseNonce := jstr "N2"
    sessionKey := wSessionKeyB }

def wCompleteRun : Except KxError Bytes × CryptoState :=
  completeKeyExchange testPrims wStA 1000 (jstr "b1") (testPrims.pubOfSigner 8)
    wRespResult.responseEphemeralPublicKey wRespResult.responseSignature
    wRespResult.responseTimestamp wRespResult.responseNonce (jstr "N1") 3

def wKeyA : Bytes :=
  deriveSessionKey testPrims (deriveSharedSecret testPrims 3 (testPrims.dhPub 4))
    (jstr "N1" ++ jstr ":" ++ jstr "N2")
    (jstr "session:" ++ jstr "a1" ++ jstr ":" ++ jstr "b1")

/-- C1 (witness). -/
theorem C1_handshake_key_agreement_witness :
    wKeyA = wRespResult.sessionKey ∧
    wKeyA = deriveSessionKey testPrims (testPrims.dhShared 3 (testPrims.dhPub 4))
      (jstr "N1" ++ jstr ":" ++ jstr "N2")
      (jstr "session:" ++ jstr "a1" ++ jstr ":" ++ jstr "b1") ∧
    createKeyConfirmation testPrims (wCompleteRun).2 2000 (jstr "CA") (jstr "b1")
        wInit.nonce =
      .ok { confirmationHash := arrayBufferToBase64 (testPrims.hmacSHA256 wKeyA
              (textEncoderEncode
                (confirmationData (jstr "a1") (jstr "b1") (jstr "N1") (jstr "CA"))))
            confirmationNonce := jstr "CA"
            timestamp := 2000 } ∧
    (verifyReceivedKeyConfirmation testPrims (wRespondRun).2 (jstr "a1")
        (arrayBufferToBase64 (testPrims.hmacSHA256 wKeyA
          (textEncoderEncode
            (confirmationData (jstr "a1") (jstr "b1") (jstr "N1") (jstr "CA")))))
        (jstr "CA") (jstr "N1")).1 = .ok true ∧
    createKeyConfirmation testPrims (wRespondRun).2 2000 (jstr "CB") (jstr "a1")
        wInit.nonce =
      .ok { confirmationHash := arrayBufferToBase64 (testPrims.hmacSHA256
              wRespResult.sessionKey
              (textEncoderEncode
                (confirmationData (jstr "b1") (jstr "a1") (jstr "N1") (jstr "CB"))))
            confirmationNonce := jstr "CB"
            timestamp := 2000 } ∧
    (verifyReceivedKeyConfirmation testPrims (wCompleteRun).2 (jstr "b1")
        (arrayBufferToBase64 (testPrims.hmacSHA256 wRespResult.sessionKey
          (textEncoderEncode
            (confirmationData (jstr "b1") (jstr "a1") (jstr "N1") (jstr "CB")))))
        (jstr "CB") (jstr "N1")).1 = .ok true :=
  C1_handshake_key_agreement testPrims wStA wStB (wCompleteRun).2 (wRespondRun).2
    7 8 (jstr "a1") (jstr "b1") 1000 1000 1000 3 4 (jstr "N1") (jstr "N2")
    wInit wRespResult wKeyA 2000 2000 (jstr "CA") (jstr "CB")
    rfl rfl rfl rfl (by decide) (by decide) (by decide)

end SecureChat
